import Mathlib

/-!
# Verification of the IM-DOE planner's design-generation and qualification core

Shallow embedding of the Design-of-Experiments generation engine
(`src/domain/designs.ts`, the run-preview estimator and generation route in
`src/routes/experiments.ts`, the run materializer in the experiments service)
and of the qualification derived-value / summary pipeline
(`src/services/qualification_service.ts`).

Modelling conventions:
* JavaScript numbers are modelled as rationals (`ℚ`); every stored numeric
  value is finite, so `Number.isFinite` tests on present values are `true`
  and a `null`/`undefined` slot is `Option.none`.  `NaN` results are
  modelled as `Option.none`.
* JavaScript objects keyed by numeric ids (`Record<number, number>`) are
  modelled as association lists, with property assignment `rset` (overwrite
  when the key exists, append otherwise) and property lookup `rget`.
* Already-parsed JSON columns (`list_json` …) are modelled by their parsed
  content; `null` columns are `Option.none`.
-/

namespace IMDoe

/-- JS object property read: `m[k]`, `undefined` becomes `none`. -/
def rget {α : Type} (m : List (Nat × α)) (k : Nat) : Option α :=
  (m.find? (fun e => e.1 == k)).map (·.2)

/-- JS object property write `m[k] = v`: overwrite an existing key, else
append.  (A JS object never holds a duplicate key, so replacing every
matching entry coincides with replacing the single one.) -/
def rset {α : Type} (m : List (Nat × α)) (k : Nat) (v : α) : List (Nat × α) :=
  if m.any (fun e => e.1 == k) then m.map (fun e => if e.1 == k then (k, v) else e)
  else m ++ [(k, v)]

/-! ## Factor model (`src/domain/designs.ts`) -/

inductive FactorMode
  | FIXED
  | RANGE
  | LIST
deriving DecidableEq, Repr, Inhabited

/-- `FactorConfig` of `src/domain/designs.ts` (the `code`/`label` strings play
no role in the algorithms and are omitted). -/
structure FactorConfig where
  paramDefId : Nat
  mode : FactorMode
  rangeMin : Option ℚ := none
  rangeMax : Option ℚ := none
  list : Option (List ℚ) := none
  levelCount : Option Nat := none
  fixedValue : Option ℚ := none
deriving DecidableEq, Repr, Inhabited

/-- `levelsFromConfig` of `src/domain/designs.ts`.  The `Number.isFinite`
filter on list entries is the identity on rationals. -/
def levelsFromConfig (config : FactorConfig) : List ℚ :=
  match config.mode with
  | .LIST => config.list.getD []
  | .RANGE =>
    match config.rangeMin, config.rangeMax with
    | some mn, some mx =>
      if config.levelCount = some 3 then [mn, (mn + mx) / 2, mx] else [mn, mx]
    | _, _ => []
  | .FIXED =>
    match config.fixedValue with
    | some v => [v]
    | none => []

/-- `cartesian` of `src/domain/designs.ts` (a left fold starting from the
singleton empty combination; the early return for an empty input is the
fold's base case). -/
def cartesian {α : Type} (sets : List (List α)) : List (List α) :=
  sets.foldl (fun acc set => acc.flatMap (fun pre => set.map (fun item => pre ++ [item]))) [[]]

/-- Modelled from the spec: `seededShuffle` lives in `src/lib/rng.ts`, which
is not among the provided sources.  Spec §4.2/§9 requires a fully
deterministic, seeded, bijective permutation driven by a splitmix/xorshift
style integer generator and nothing else; we model it as a Fisher–Yates
shuffle driven by a 32-bit linear congruential generator. -/
def lcgNext (s : Nat) : Nat := (s * 1664525 + 1013904223) % 4294967296

/-- Modelled from the spec: selection loop of the seeded Fisher–Yates
shuffle (see `lcgNext`).  `fuel` is the length of the input list. -/
def shuffleGo {α : Type} : Nat → Nat → List α → List α
  | 0, _, xs => xs
  | fuel + 1, s, xs =>
    if h : xs.length = 0 then xs
    else
      let i := s % xs.length
      xs.get ⟨i, Nat.mod_lt _ (Nat.pos_of_ne_zero h)⟩ ::
        shuffleGo fuel (lcgNext s) (xs.eraseIdx i)

/-- Modelled from the spec: `seededShuffle` of `src/lib/rng.ts` (file not in
the sources); a deterministic seeded permutation of the input list. -/
def seededShuffle {α : Type} (xs : List α) (seed : Nat) : List α :=
  shuffleGo xs.length seed xs

/-- `DesignRun` of `src/domain/designs.ts`: `coded` is populated only by the
Box–Behnken builder. -/
structure DesignRun where
  values : List (Nat × ℚ)
  coded : Option (List (Nat × ℚ)) := none
deriving DecidableEq, Repr

/-- The `usable.forEach((factor, idx) => values[factor.paramDefId] = combo[idx])`
loop shared by the SIM/FFA/SCREEN builders. -/
def assignCombo (factors : List FactorConfig) (combo : List ℚ) : List (Nat × ℚ) :=
  factors.enum.foldl (fun m p => rset m p.2.paramDefId (combo.getD p.1 0)) []

/-- `buildSimDesign` of `src/domain/designs.ts`. -/
def buildSimDesign (factors : List FactorConfig) (seed : Nat) (maxRuns : Nat) :
    List DesignRun :=
  let usable := factors.filter (fun f => !((levelsFromConfig f).length == 0))
  let sets := usable.map levelsFromConfig
  let combos := cartesian sets
  let runs := (combos.take maxRuns).map (fun combo => ({ values := assignCombo usable combo } : DesignRun))
  seededShuffle runs seed

/-- `buildFfaDesign` of `src/domain/designs.ts` (no pre-filtering of empty
factors). -/
def buildFfaDesign (factors : List FactorConfig) (seed : Nat) (maxRuns : Nat) :
    List DesignRun :=
  let combos := cartesian (factors.map levelsFromConfig)
  let runs := (combos.take maxRuns).map (fun combo => ({ values := assignCombo factors combo } : DesignRun))
  seededShuffle runs seed

/-- `buildScreenDesign` of `src/domain/designs.ts`. -/
def buildScreenDesign (factors : List FactorConfig) (seed : Nat) (maxRuns : Nat) :
    List DesignRun :=
  let sets := factors.map (fun f => (levelsFromConfig f).take 2)
  let combos := cartesian sets
  let shuffled := seededShuffle combos seed
  let sampled := shuffled.take (min maxRuns combos.length)
  sampled.map (fun combo => ({ values := assignCombo factors combo } : DesignRun))

/-! ## Box–Behnken builder (`buildBbdDesign`, `src/domain/designs.ts` 77–131) -/

/-- The factors counted as usable by `buildBbdDesign`: exactly three levels. -/
def usableBbd (factors : List FactorConfig) : List FactorConfig :=
  factors.filter (fun f => (levelsFromConfig f).length == 3)

/-- The four coded `(±1, ±1)` combinations emitted per factor pair. -/
def bbdPairCodes : List (ℚ × ℚ) := [(-1, -1), (-1, 1), (1, -1), (1, 1)]

/-- The all-zero coded record over the usable factors (`base` in the source,
also the coded record of a center run). -/
def bbdBase (usable : List FactorConfig) : List (Nat × ℚ) :=
  usable.foldl (fun m f => rset m f.paramDefId 0) []

/-- The double loop over unordered factor pairs of `buildBbdDesign`:
for each `i < j` emit the four `(±1, ±1)` coded records. -/
def bbdPairRuns (usable : List FactorConfig) : List (List (Nat × ℚ)) :=
  (List.range usable.length).flatMap (fun i =>
    ((List.range usable.length).filter (fun j => decide (i < j))).flatMap (fun j =>
      bbdPairCodes.map (fun ab =>
        rset (rset (bbdBase usable) (usable.getD i default).paramDefId ab.1)
          (usable.getD j default).paramDefId ab.2)))

/-- `codedValue === -1 ? 0 : codedValue === 1 ? 2 : 1` (an absent coded value
maps to the middle index, as in the source). -/
def bbdCodedIndex (v : Option ℚ) : Nat :=
  if v = some (-1) then 0 else if v = some 1 then 2 else 1

structure BbdResult where
  runs : List DesignRun
  codedLevels : List (List (Nat × ℚ))
deriving DecidableEq, Repr

/-- `buildBbdDesign` of `src/domain/designs.ts`. -/
def buildBbdDesign (factors : List FactorConfig) (seed : Nat) (centerPoints : Nat) :
    BbdResult :=
  let usable := usableBbd factors
  let codedRuns := bbdPairRuns usable ++ List.replicate centerPoints (bbdBase usable)
  let shuffled := seededShuffle codedRuns seed
  let runs := shuffled.map (fun coded =>
    ({ values := usable.foldl (fun m f =>
          rset m f.paramDefId
            ((levelsFromConfig f).getD (bbdCodedIndex (rget coded f.paramDefId)) 0)) []
       coded := some coded } : DesignRun))
  { runs := runs, codedLevels := shuffled }

/-- A coded record describing a Box–Behnken pair run: exactly one unordered
pair of factors is coded non-zero, and every coded value lies in
`{-1, 0, 1}` (so the two non-zero entries lie in `{-1, 1}`). -/
def isPairRun (m : List (Nat × ℚ)) : Bool :=
  decide (m.countP (fun e => decide (e.2 ≠ 0)) = 2) &&
    m.all (fun e => decide (e.2 = -1 ∨ e.2 = 0 ∨ e.2 = 1))

/-- A coded record describing a Box–Behnken center run: every usable factor
is coded `0`. -/
def isCenterRun (m : List (Nat × ℚ)) : Bool :=
  m.all (fun e => decide (e.2 = 0))

/-! ## Association-list and shuffle lemmas -/

theorem rset_append {α : Type} {m : List (Nat × α)} {k : Nat} (v : α)
    (hk : k ∉ m.map Prod.fst) : rset m k v = m ++ [(k, v)] := by
  unfold rset
  rw [if_neg]
  intro hany
  rcases List.any_eq_true.mp hany with ⟨e, he, hek⟩
  exact hk (List.mem_map.mpr ⟨e, he, by simpa using (beq_iff_eq.mp hek)⟩)

theorem rget_cons_pos {α : Type} {e : Nat × α} {m : List (Nat × α)} {k : Nat}
    (h : e.1 = k) : rget (e :: m) k = some e.2 := by
  rw [rget, List.find?_cons_of_pos (p := fun x : Nat × α => x.1 == k) _ (by simpa using h)]
  rfl

theorem rget_cons_neg {α : Type} {e : Nat × α} {m : List (Nat × α)} {k : Nat}
    (h : e.1 ≠ k) : rget (e :: m) k = rget m k := by
  rw [rget, List.find?_cons_of_neg (p := fun x : Nat × α => x.1 == k) _ (by simpa using h)]
  rfl

theorem rget_replace_self {α : Type} {k : Nat} (v : α) :
    ∀ (m : List (Nat × α)), (m.any fun e => e.1 == k) = true →
      rget (m.map fun e => if e.1 == k then (k, v) else e) k = some v
  | [], hany => by simp at hany
  | e :: m, hany => by
    by_cases hek : (e.1 == k) = true
    · simp only [List.map_cons, if_pos hek]
      exact rget_cons_pos rfl
    · simp only [List.map_cons, if_neg hek]
      rw [rget_cons_neg (by simpa using hek)]
      refine rget_replace_self v m ?_
      rcases List.any_eq_true.mp hany with ⟨x, hx, hxk⟩
      rcases List.mem_cons.mp hx with rfl | hx'
      · exact absurd hxk hek
      · exact List.any_eq_true.mpr ⟨x, hx', hxk⟩

theorem rget_replace_ne {α : Type} {k k' : Nat} (v : α) (hne : k' ≠ k) :
    ∀ (m : List (Nat × α)),
      rget (m.map fun e => if e.1 == k then (k, v) else e) k' = rget m k'
  | [] => rfl
  | e :: m => by
    by_cases hek : (e.1 == k) = true
    · have he1 : e.1 = k := beq_iff_eq.mp hek
      simp only [List.map_cons, if_pos hek]
      rw [rget_cons_neg (show (k, v).1 ≠ k' from hne.symm)]
      rw [rget_cons_neg (show e.1 ≠ k' by rw [he1]; exact hne.symm)]
      exact rget_replace_ne v hne m
    · simp only [List.map_cons, if_neg hek]
      by_cases hek' : e.1 = k'
      · rw [rget_cons_pos hek', rget_cons_pos hek']
      · rw [rget_cons_neg hek', rget_cons_neg hek']
        exact rget_replace_ne v hne m

theorem rget_append_single_self {α : Type} {k : Nat} (v : α) :
    ∀ (m : List (Nat × α)), (∀ e ∈ m, e.1 ≠ k) →
      rget (m ++ [(k, v)]) k = some v
  | [], _ => by
    rw [List.nil_append]
    exact rget_cons_pos rfl
  | e :: m, hall => by
    rw [List.cons_append, rget_cons_neg (hall e (by simp))]
    exact rget_append_single_self v m fun x hx => hall x (List.mem_cons_of_mem _ hx)

theorem rget_append_single_ne {α : Type} {k k' : Nat} (v : α) (hne : k' ≠ k) :
    ∀ (m : List (Nat × α)), rget (m ++ [(k, v)]) k' = rget m k'
  | [] => by
    rw [List.nil_append, rget_cons_neg (by simpa using hne.symm)]
  | e :: m => by
    by_cases hek' : e.1 = k'
    · rw [List.cons_append, rget_cons_pos hek', rget_cons_pos hek']
    · rw [List.cons_append, rget_cons_neg hek', rget_cons_neg hek']
      exact rget_append_single_ne v hne m

theorem rget_rset_self {α : Type} (m : List (Nat × α)) (k : Nat) (v : α) :
    rget (rset m k v) k = some v := by
  unfold rset
  by_cases hany : (m.any fun e => e.1 == k) = true
  · rw [if_pos hany]
    exact rget_replace_self v m hany
  · rw [if_neg hany]
    refine rget_append_single_self v m fun e he hek => ?_
    exact hany (List.any_eq_true.mpr ⟨e, he, by simpa using hek⟩)

theorem rget_rset_ne {α : Type} (m : List (Nat × α)) {k k' : Nat} (v : α)
    (hne : k' ≠ k) : rget (rset m k v) k' = rget m k' := by
  unfold rset
  by_cases hany : (m.any fun e => e.1 == k) = true
  · rw [if_pos hany]
    exact rget_replace_ne v hne m
  · rw [if_neg hany]
    exact rget_append_single_ne v hne m

theorem rget_getElem {α : Type} :
    ∀ (m : List (Nat × α)), (m.map Prod.fst).Nodup → ∀ (t : Nat) (h : t < m.length),
      rget m (m.get ⟨t, h⟩).1 = some (m.get ⟨t, h⟩).2
  | e :: m, _, 0, _ => by exact rget_cons_pos rfl
  | e :: m, hnd, t + 1, h => by
    have ht : t < m.length := Nat.lt_of_succ_lt_succ h
    have hnd' : (e.1 :: m.map Prod.fst).Nodup := by simpa using hnd
    have hmem : (m.get ⟨t, ht⟩).1 ∈ m.map Prod.fst :=
      List.mem_map_of_mem Prod.fst
        (by simp only [List.get_eq_getElem]; exact List.getElem_mem ht)
    have hne : e.1 ≠ (m.get ⟨t, ht⟩).1 :=
      fun hEq => (List.nodup_cons.mp hnd').1 (hEq ▸ hmem)
    show rget (e :: m) ((m.get ⟨t, ht⟩).1) = some (m.get ⟨t, ht⟩).2
    rw [rget_cons_neg hne]
    exact rget_getElem m (List.nodup_cons.mp hnd').2 t ht

theorem perm_get_cons_eraseIdx {α : Type} :
    ∀ (xs : List α) (i : Nat) (h : i < xs.length),
      xs.Perm (xs.get ⟨i, h⟩ :: xs.eraseIdx i)
  | _ :: _, 0, _ => by simp [List.eraseIdx]
  | x :: xs, i + 1, h => by
    have ih := perm_get_cons_eraseIdx xs i (Nat.lt_of_succ_lt_succ h)
    show (x :: xs).Perm
      (xs.get ⟨i, Nat.lt_of_succ_lt_succ h⟩ :: x :: xs.eraseIdx i)
    exact (ih.cons x).trans (List.Perm.swap _ _ _)

theorem shuffleGo_perm {α : Type} :
    ∀ (fuel s : Nat) (xs : List α), (shuffleGo fuel s xs).Perm xs := by
  intro fuel
  induction fuel with
  | zero => intro s xs; exact List.Perm.refl _
  | succ n ih =>
    intro s xs
    rw [shuffleGo]
    split
    · exact .refl _
    · exact ((ih _ _).cons _).trans (perm_get_cons_eraseIdx xs _ _).symm

/-- The modelled shuffler satisfies the spec's bijectivity contract
(§4.2, §8 "Bijection"): its output is a permutation of its input. -/
theorem seededShuffle_perm {α : Type} (xs : List α) (seed : Nat) :
    (seededShuffle xs seed).Perm xs :=
  shuffleGo_perm _ _ _

theorem foldl_rset_of_nodup {β α : Type} (key : β → Nat) (val : β → α) :
    ∀ (l : List β) (acc : List (Nat × α)),
      (∀ b ∈ l, key b ∉ acc.map Prod.fst) → (l.map key).Nodup →
      l.foldl (fun m b => rset m (key b) (val b)) acc =
        acc ++ l.map (fun b => (key b, val b))
  | [], acc, _, _ => by simp
  | b :: l, acc, hfresh, hnd => by
    have hb : key b ∉ acc.map Prod.fst := hfresh b (by simp)
    have hnd' : (l.map key).Nodup := by
      simpa using hnd.of_cons
    have hhead : key b ∉ l.map key := by
      simp only [List.map_cons, List.nodup_cons] at hnd
      exact hnd.1
    rw [List.foldl_cons, rset_append (val b) hb,
      foldl_rset_of_nodup key val l (acc ++ [(key b, val b)]) ?_ hnd']
    · simp
    · intro b' hb'
      simp only [List.map_append, List.mem_append, List.map_cons, List.map_nil,
        List.mem_singleton, not_or]
      refine ⟨hfresh b' (List.mem_cons_of_mem _ hb'), ?_⟩
      intro hEq
      exact hhead (hEq ▸ List.mem_map_of_mem key hb')

/-! ## Structure of the Box–Behnken coded runs -/

theorem set_getElem_self {α : Type} (l : List α) (i : Nat) (h : i < l.length) :
    l.set i l[i] = l := by
  apply List.ext_getElem
  · simp
  · intro u h1 h2
    rw [List.getElem_set]
    split
    · simp_all
    · rfl

theorem rset_eq_set {α : Type} (l : List (Nat × α)) (hnd : (l.map Prod.fst).Nodup)
    (t : Nat) (ht : t < l.length) (v : α) :
    rset l (l.get ⟨t, ht⟩).1 v = l.set t ((l.get ⟨t, ht⟩).1, v) := by
  have hany : (l.any fun e => e.1 == (l.get ⟨t, ht⟩).1) = true :=
    List.any_eq_true.mpr
      ⟨l.get ⟨t, ht⟩, by simp [List.get_eq_getElem, List.getElem_mem], by simp⟩
  unfold rset
  rw [if_pos hany]
  apply List.ext_getElem
  · simp
  · intro u h1 h2
    have hu : u < l.length := by simpa using h1
    rw [List.getElem_map, List.getElem_set]
    by_cases hut : t = u
    · subst hut
      simp [List.get_eq_getElem]
    · have hkey : l[u].1 ≠ l[t].1 := by
        intro hEq
        have hfst : (l.map Prod.fst).get ⟨u, by simpa using hu⟩ =
            (l.map Prod.fst).get ⟨t, by simpa using ht⟩ := by
          simpa using hEq
        exact hut ((hnd.getElem_inj_iff.mp hfst).symm)
      simp [List.get_eq_getElem, hkey, hut]

theorem bbdBase_eq_map (usable : List FactorConfig)
    (hnd : (usable.map (·.paramDefId)).Nodup) :
    bbdBase usable = usable.map (fun f => (f.paramDefId, (0 : ℚ))) := by
  simpa [bbdBase] using
    foldl_rset_of_nodup (fun f : FactorConfig => f.paramDefId) (fun _ => (0 : ℚ))
      usable [] (by simp) hnd

/-- The `(t, f)`-indexed normal form of one coded pair record: factor at
position `i` coded `a`, factor at position `j` coded `b`, all others `0`. -/
def pairEnumMap (usable : List FactorConfig) (i j : Nat) (a b : ℚ) :
    List (Nat × ℚ) :=
  usable.enum.map (fun tf =>
    (tf.2.paramDefId, if tf.1 = i then a else if tf.1 = j then b else 0))

theorem bbdPair_eq_enumMap (usable : List FactorConfig)
    (hnd : (usable.map (·.paramDefId)).Nodup) (i j : Nat) (hij : i < j)
    (hj : j < usable.length) (a b : ℚ) :
    rset (rset (bbdBase usable) (usable.getD i default).paramDefId a)
        (usable.getD j default).paramDefId b = pairEnumMap usable i j a b := by
  have hi : i < usable.length := Nat.lt_trans hij hj
  have hbase := bbdBase_eq_map usable hnd
  set base := usable.map (fun f => (f.paramDefId, (0 : ℚ))) with hbasedef
  have hkeys : base.map Prod.fst = usable.map (·.paramDefId) := by
    simp [hbasedef]
  have hlen : base.length = usable.length := by simp [hbasedef]
  have hgi : base.get ⟨i, by omega⟩ = (usable[i].paramDefId, (0 : ℚ)) := by
    simp [hbasedef, List.get_eq_getElem]
  have hpidI : (usable.getD i default).paramDefId = (base.get ⟨i, by omega⟩).1 := by
    rw [List.getD_eq_getElem _ _ hi, hgi]
  have step1 : rset (bbdBase usable) (usable.getD i default).paramDefId a =
      base.set i (usable[i].paramDefId, a) := by
    rw [hbase, hpidI, rset_eq_set base (by rw [hkeys]; exact hnd) i (by omega) a, hgi]
  set l1 := base.set i (usable[i].paramDefId, a) with hl1def
  have hl1len : l1.length = usable.length := by simp [hl1def, hlen]
  have hl1keys : l1.map Prod.fst = usable.map (·.paramDefId) := by
    rw [hl1def, List.map_set, hkeys]
    have : (usable.map (·.paramDefId)).set i usable[i].paramDefId =
        (usable.map (·.paramDefId)).set i
          ((usable.map (·.paramDefId)).get ⟨i, by simpa using hi⟩) := by
      simp
    rw [this, List.get_eq_getElem, set_getElem_self]
  have hgj : l1.get ⟨j, by omega⟩ = (usable[j].paramDefId, (0 : ℚ)) := by
    simp only [hl1def, List.get_eq_getElem]
    rw [List.getElem_set]
    rw [if_neg (by omega)]
    simp [hbasedef]
  have hpidJ : (usable.getD j default).paramDefId = (l1.get ⟨j, by omega⟩).1 := by
    rw [List.getD_eq_getElem _ _ hj, hgj]
  have step2 : rset l1 (usable.getD j default).paramDefId b =
      l1.set j (usable[j].paramDefId, b) := by
    rw [hpidJ, rset_eq_set l1 (by rw [hl1keys]; exact hnd) j (by omega) b, hgj]
  rw [step1, step2]
  apply List.ext_getElem
  · simp [hl1def, hlen, pairEnumMap, List.enum_length]
  · intro u h1 h2
    have hu : u < usable.length := by simpa [hl1def, hlen] using h1
    simp only [pairEnumMap]
    rw [List.getElem_map, List.getElem_enum]
    simp only [hl1def]
    rw [List.getElem_set, List.getElem_set, List.getElem_map]
    by_cases huj : u = j
    · subst huj
      rw [if_pos rfl, if_neg (by omega), if_pos rfl]
    · rw [if_neg (by omega)]
      by_cases hui : u = i
      · subst hui
        rw [if_pos rfl, if_pos rfl]
      · rw [if_neg (by omega), if_neg (by omega), if_neg (by omega)]

theorem countP_or_disjoint {α : Type} (p q : α → Bool) :
    ∀ (l : List α), (∀ x ∈ l, ¬(p x = true ∧ q x = true)) →
      l.countP (fun x => p x || q x) = l.countP p + l.countP q
  | [], _ => rfl
  | x :: l, h => by
    rw [List.countP_cons, List.countP_cons, List.countP_cons,
      countP_or_disjoint p q l (fun y hy => h y (List.mem_cons_of_mem _ hy))]
    by_cases hp : p x = true <;> by_cases hq : q x = true
    · exact absurd ⟨hp, hq⟩ (h x (by simp))
    all_goals simp only [hp, hq, Bool.true_or, Bool.or_true, Bool.false_or,
      Bool.or_false, if_true, if_false, Bool.false_eq_true, reduceIte]
    all_goals omega

theorem countP_pairEnumMap (usable : List FactorConfig) (i j : Nat) (hij : i < j)
    (hj : j < usable.length) (a b : ℚ) (ha : a ≠ 0) (hb : b ≠ 0) :
    (pairEnumMap usable i j a b).countP (fun e => decide (e.2 ≠ 0)) = 2 := by
  rw [pairEnumMap, List.countP_map]
  have hcongr : List.countP
      ((fun e : Nat × ℚ => decide (e.2 ≠ 0)) ∘
        (fun tf : Nat × FactorConfig =>
          (tf.2.paramDefId, if tf.1 = i then a else if tf.1 = j then b else 0)))
      usable.enum =
      List.countP (fun tf : Nat × FactorConfig => tf.1 == i || tf.1 == j) usable.enum := by
    apply List.countP_congr
    intro tf _
    by_cases h1 : tf.1 = i
    · simp [Function.comp, h1, ha]
    · by_cases h2 : tf.1 = j
      · simp [Function.comp, h1, h2, hb, hij.ne']
      · simp [Function.comp, h1, h2]
  rw [hcongr]
  have hmapped : List.countP (fun tf : Nat × FactorConfig => tf.1 == i || tf.1 == j)
      usable.enum =
      List.countP (fun t : Nat => t == i || t == j) (List.range usable.length) := by
    rw [← List.enum_map_fst usable, List.countP_map]
    rfl
  rw [hmapped,
    countP_or_disjoint (fun t : Nat => t == i) (fun t : Nat => t == j) _
      (by
        intro x _ hx
        have h1 : x = i := by simpa using hx.1
        have h2 : x = j := by simpa using hx.2
        omega)]
  rw [← List.count_eq_countP i, ← List.count_eq_countP j]
  rw [List.count_eq_one_of_mem (List.nodup_range _) (List.mem_range.mpr (by omega)),
    List.count_eq_one_of_mem (List.nodup_range _) (List.mem_range.mpr hj)]

theorem sum_map_range (f : Nat → Nat) :
    ∀ n, ((List.range n).map f).sum = ∑ t ∈ Finset.range n, f t := by
  intro n
  induction n with
  | zero => simp
  | succ n ih => simp [List.range_succ, Finset.sum_range_succ, ih]

theorem filter_range_gt_length (i : Nat) :
    ∀ n, ((List.range n).filter (fun j => decide (i < j))).length = n - (i + 1) := by
  intro n
  induction n with
  | zero => simp
  | succ n ih =>
    rw [List.range_succ, List.filter_append, List.length_append, ih]
    by_cases h : i < n
    · simp only [List.filter_cons, List.filter_nil, decide_eq_true h, if_pos]
      simp
      omega
    · simp only [List.filter_cons, List.filter_nil]
      rw [if_neg (by simpa using h)]
      simp
      omega

theorem length_bbdPairRuns (usable : List FactorConfig) :
    (bbdPairRuns usable).length = 4 * (usable.length.choose 2) := by
  rw [bbdPairRuns, List.length_flatMap]
  have hinner : ∀ i : Nat,
      (((List.range usable.length).filter (fun j => decide (i < j))).flatMap
        (fun j => bbdPairCodes.map (fun ab =>
          rset (rset (bbdBase usable) (usable.getD i default).paramDefId ab.1)
            (usable.getD j default).paramDefId ab.2))).length =
      4 * (usable.length - (i + 1)) := by
    intro i
    rw [List.length_flatMap]
    have : ∀ j : Nat,
        (bbdPairCodes.map (fun ab =>
          rset (rset (bbdBase usable) (usable.getD i default).paramDefId ab.1)
            (usable.getD j default).paramDefId ab.2)).length = 4 := by
      intro j
      simp [bbdPairCodes]
    have hconst := List.eq_replicate_of_mem (a := (4 : Nat))
      (l := ((List.range usable.length).filter (fun j => decide (i < j))).map
        (List.length ∘ (fun j => bbdPairCodes.map (fun ab =>
          rset (rset (bbdBase usable) (usable.getD i default).paramDefId ab.1)
            (usable.getD j default).paramDefId ab.2))))
      (by
        intro x hx
        obtain ⟨j, _, rfl⟩ := List.mem_map.mp hx
        simpa [Function.comp] using this j)
    rw [hconst, List.sum_replicate, smul_eq_mul, List.length_map,
      filter_range_gt_length]
    omega
  have hmap : (List.range usable.length).map
      (List.length ∘ (fun i =>
        ((List.range usable.length).filter (fun j => decide (i < j))).flatMap
          (fun j => bbdPairCodes.map (fun ab =>
            rset (rset (bbdBase usable) (usable.getD i default).paramDefId ab.1)
              (usable.getD j default).paramDefId ab.2)))) =
      (List.range usable.length).map (fun i => 4 * (usable.length - (i + 1))) := by
    apply List.map_congr_left
    intro i _
    exact hinner i
  rw [hmap, sum_map_range]
  have hshift : ∑ t ∈ Finset.range usable.length, 4 * (usable.length - (t + 1)) =
      ∑ t ∈ Finset.range usable.length, 4 * (usable.length - 1 - t) := by
    apply Finset.sum_congr rfl
    intro t _
    congr 1
    omega
  rw [hshift, Finset.sum_range_reflect (fun t => 4 * t) usable.length, ← Finset.mul_sum]
  have hgauss := Finset.sum_range_id_mul_two usable.length
  have hchoose := Nat.choose_two_right usable.length
  omega

theorem pairEnumMap_values_in_range (usable : List FactorConfig) (i j : Nat)
    (a b : ℚ) (ha : a = -1 ∨ a = 1) (hb : b = -1 ∨ b = 1) :
    ∀ e ∈ pairEnumMap usable i j a b, e.2 = -1 ∨ e.2 = 0 ∨ e.2 = 1 := by
  intro e he
  obtain ⟨tf, _, rfl⟩ := List.mem_map.mp he
  dsimp only
  split_ifs
  · rcases ha with h | h <;> simp [h]
  · rcases hb with h | h <;> simp [h]
  · simp

theorem isPairRun_pairEnumMap (usable : List FactorConfig) (i j : Nat)
    (hij : i < j) (hj : j < usable.length) (a b : ℚ)
    (ha : a = -1 ∨ a = 1) (hb : b = -1 ∨ b = 1) :
    isPairRun (pairEnumMap usable i j a b) = true := by
  have ha0 : a ≠ 0 := by rcases ha with h | h <;> simp [h]
  have hb0 : b ≠ 0 := by rcases hb with h | h <;> simp [h]
  rw [isPairRun, Bool.and_eq_true, decide_eq_true_eq]
  refine ⟨countP_pairEnumMap usable i j hij hj a b ha0 hb0, ?_⟩
  rw [List.all_eq_true]
  intro e he
  rw [decide_eq_true_eq]
  exact pairEnumMap_values_in_range usable i j a b ha hb e he

theorem isCenterRun_pairEnumMap (usable : List FactorConfig) (i j : Nat)
    (hij : i < j) (hj : j < usable.length) (a b : ℚ) (ha : a ≠ 0) :
    isCenterRun (pairEnumMap usable i j a b) = false := by
  have hi : i < usable.length := Nat.lt_trans hij hj
  rw [isCenterRun]
  by_contra h
  rw [Bool.not_eq_false, List.all_eq_true] at h
  have hlen : i < (pairEnumMap usable i j a b).length := by
    simp [pairEnumMap, List.enum_length]
    omega
  have hmem : (pairEnumMap usable i j a b)[i] ∈ pairEnumMap usable i j a b :=
    List.getElem_mem hlen
  have hval : (pairEnumMap usable i j a b)[i].2 = a := by
    simp [pairEnumMap]
  have := h _ hmem
  rw [decide_eq_true_eq, hval] at this
  exact ha this

theorem isCenterRun_bbdBase (usable : List FactorConfig)
    (hnd : (usable.map (·.paramDefId)).Nodup) :
    isCenterRun (bbdBase usable) = true := by
  rw [bbdBase_eq_map usable hnd, isCenterRun, List.all_eq_true]
  intro e he
  obtain ⟨f, _, rfl⟩ := List.mem_map.mp he
  simp

theorem isPairRun_bbdBase (usable : List FactorConfig)
    (hnd : (usable.map (·.paramDefId)).Nodup) :
    isPairRun (bbdBase usable) = false := by
  rw [bbdBase_eq_map usable hnd, isPairRun]
  have hcount : (usable.map (fun f => (f.paramDefId, (0 : ℚ)))).countP
      (fun e => decide (e.2 ≠ 0)) = 0 := by
    rw [List.countP_eq_zero]
    intro e he
    obtain ⟨f, _, rfl⟩ := List.mem_map.mp he
    simp
  rw [hcount]
  simp

theorem mem_bbdPairRuns (usable : List FactorConfig)
    (hnd : (usable.map (·.paramDefId)).Nodup) :
    ∀ m ∈ bbdPairRuns usable, ∃ i j a b, i < j ∧ j < usable.length ∧
      (a = -1 ∨ a = 1) ∧ (b = -1 ∨ b = 1) ∧ m = pairEnumMap usable i j a b := by
  intro m hm
  rw [bbdPairRuns] at hm
  obtain ⟨i, _, hm⟩ := List.mem_flatMap.mp hm
  obtain ⟨j, hj, hm⟩ := List.mem_flatMap.mp hm
  obtain ⟨ab, hab, rfl⟩ := List.mem_map.mp hm
  have hij : i < j := by simpa using (List.mem_filter.mp hj).2
  have hjn : j < usable.length := List.mem_range.mp (List.mem_filter.mp hj).1
  have hcases : ab = ((-1 : ℚ), (-1 : ℚ)) ∨ ab = (-1, 1) ∨ ab = (1, -1) ∨ ab = (1, 1) := by
    simpa [bbdPairCodes] using hab
  refine ⟨i, j, ab.1, ab.2, hij, hjn, ?_, ?_,
    bbdPair_eq_enumMap usable hnd i j hij hjn ab.1 ab.2⟩
  · rcases hcases with h | h | h | h <;> subst h <;> simp
  · rcases hcases with h | h | h | h <;> subst h <;> simp

theorem rget_keyed_map {β : Type} (key : β → Nat) (val : β → ℚ) (l : List β)
    (hnd : (l.map key).Nodup) (b : β) (hb : b ∈ l) :
    rget (l.map fun x => (key x, val x)) (key b) = some (val b) := by
  obtain ⟨t, ht, hEq⟩ := List.mem_iff_getElem.mp hb
  have hlen : t < (l.map fun x => (key x, val x)).length := by simpa using ht
  have hget : (l.map fun x => (key x, val x)).get ⟨t, hlen⟩ = (key l[t], val l[t]) := by
    simp
  have hkeys : ((l.map fun x => (key x, val x)).map Prod.fst).Nodup := by
    rw [List.map_map]
    simpa [Function.comp] using hnd
  have hr := rget_getElem (l.map fun x => (key x, val x)) hkeys t hlen
  rw [hget] at hr
  rw [← hEq]
  exact hr

theorem bbdValues_eq_map (usable : List FactorConfig)
    (hnd : (usable.map (·.paramDefId)).Nodup) (coded : List (Nat × ℚ)) :
    usable.foldl (fun m f =>
      rset m f.paramDefId
        ((levelsFromConfig f).getD (bbdCodedIndex (rget coded f.paramDefId)) 0)) [] =
    usable.map (fun f => (f.paramDefId,
      (levelsFromConfig f).getD (bbdCodedIndex (rget coded f.paramDefId)) 0)) := by
  simpa using
    foldl_rset_of_nodup (fun f : FactorConfig => f.paramDefId)
      (fun f => (levelsFromConfig f).getD (bbdCodedIndex (rget coded f.paramDefId)) 0)
      usable [] (by simp) hnd

theorem bbdCodedIndex_neg1 : bbdCodedIndex (some (-1)) = 0 := by decide

theorem bbdCodedIndex_zero : bbdCodedIndex (some 0) = 1 := by decide

theorem bbdCodedIndex_one : bbdCodedIndex (some 1) = 2 := by decide

/-- C1: for every factor-configuration list (with distinct parameter ids) in
which exactly `k` factors have exactly 3 levels (`k = (usableBbd factors).length`)
and every center-point count `c`, `buildBbdDesign` returns exactly
`4·C(k,2) + c` runs; every run carries a coded record whose values all lie in
`{-1, 0, 1}`; exactly `4·C(k,2)` of the runs are pair runs (exactly one
unordered pair of usable factors coded in `{-1, 1}`, all other usable factors
coded `0`) and exactly `c` are all-zero center runs; and each usable factor's
physical value is the level selected by its coded value via
`-1 → level[0]`, `0 → level[1]`, `1 → level[2]`. -/
theorem bbd_design_spec (factors : List FactorConfig) (seed c : Nat)
    (hnd : ((usableBbd factors).map (·.paramDefId)).Nodup) :
    (buildBbdDesign factors seed c).runs.length =
        4 * ((usableBbd factors).length.choose 2) + c
    ∧ (∀ r ∈ (buildBbdDesign factors seed c).runs, r.coded.isSome = true)
    ∧ (∀ r ∈ (buildBbdDesign factors seed c).runs, ∀ e ∈ r.coded.getD [],
        e.2 = -1 ∨ e.2 = 0 ∨ e.2 = 1)
    ∧ (buildBbdDesign factors seed c).runs.countP
        (fun r => isPairRun (r.coded.getD [])) =
          4 * ((usableBbd factors).length.choose 2)
    ∧ (buildBbdDesign factors seed c).runs.countP
        (fun r => isCenterRun (r.coded.getD [])) = c
    ∧ (∀ r ∈ (buildBbdDesign factors seed c).runs, ∀ f ∈ usableBbd factors,
        (levelsFromConfig f).length = 3
        ∧ (rget (r.coded.getD []) f.paramDefId = some (-1) →
            rget r.values f.paramDefId = some ((levelsFromConfig f).getD 0 0))
        ∧ (rget (r.coded.getD []) f.paramDefId = some 0 →
            rget r.values f.paramDefId = some ((levelsFromConfig f).getD 1 0))
        ∧ (rget (r.coded.getD []) f.paramDefId = some 1 →
            rget r.values f.paramDefId = some ((levelsFromConfig f).getD 2 0))) := by
  have hruns : (buildBbdDesign factors seed c).runs =
      (seededShuffle
        (bbdPairRuns (usableBbd factors) ++
          List.replicate c (bbdBase (usableBbd factors))) seed).map
        (fun coded =>
          ({ values := (usableBbd factors).foldl (fun m f =>
              rset m f.paramDefId
                ((levelsFromConfig f).getD
                  (bbdCodedIndex (rget coded f.paramDefId)) 0)) []
             coded := some coded } : DesignRun)) := rfl
  have hperm : (seededShuffle
      (bbdPairRuns (usableBbd factors) ++
        List.replicate c (bbdBase (usableBbd factors))) seed).Perm
      (bbdPairRuns (usableBbd factors) ++
        List.replicate c (bbdBase (usableBbd factors))) :=
    seededShuffle_perm _ _
  have hcases : ∀ coded ∈ bbdPairRuns (usableBbd factors) ++
      List.replicate c (bbdBase (usableBbd factors)),
      (∃ i j a b, i < j ∧ j < (usableBbd factors).length ∧
        (a = -1 ∨ a = 1) ∧ (b = -1 ∨ b = 1) ∧
        coded = pairEnumMap (usableBbd factors) i j a b) ∨
      coded = bbdBase (usableBbd factors) := by
    intro coded hcoded
    rcases List.mem_append.mp hcoded with hp | hc
    · exact Or.inl (mem_bbdPairRuns (usableBbd factors) hnd coded hp)
    · exact Or.inr (List.mem_replicate.mp hc).2
  refine ⟨?_, ?_, ?_, ?_, ?_, ?_⟩
  · rw [hruns, List.length_map, hperm.length_eq, List.length_append,
      length_bbdPairRuns, List.length_replicate]
  · intro r hr
    rw [hruns] at hr
    obtain ⟨coded, _, rfl⟩ := List.mem_map.mp hr
    rfl
  · intro r hr e he
    rw [hruns] at hr
    obtain ⟨coded, hmem, rfl⟩ := List.mem_map.mp hr
    have hmem' := hperm.mem_iff.mp hmem
    rcases hcases coded hmem' with ⟨i, j, a, b, hij, hj, ha, hb, rfl⟩ | rfl
    · exact pairEnumMap_values_in_range _ i j a b ha hb e he
    · have hbm := isCenterRun_bbdBase (usableBbd factors) hnd
      rw [isCenterRun, List.all_eq_true] at hbm
      have := hbm e he
      rw [decide_eq_true_eq] at this
      exact Or.inr (Or.inl this)
  · rw [hruns, List.countP_map]
    have hcomp : ((fun r : DesignRun => isPairRun (r.coded.getD [])) ∘
        (fun coded : List (Nat × ℚ) =>
          ({ values := (usableBbd factors).foldl (fun m f =>
              rset m f.paramDefId
                ((levelsFromConfig f).getD
                  (bbdCodedIndex (rget coded f.paramDefId)) 0)) []
             coded := some coded } : DesignRun))) = fun coded => isPairRun coded := rfl
    rw [hcomp, hperm.countP_eq, List.countP_append]
    have h1 : (bbdPairRuns (usableBbd factors)).countP (fun coded => isPairRun coded) =
        (bbdPairRuns (usableBbd factors)).length := by
      rw [List.countP_eq_length]
      intro m hm
      obtain ⟨i, j, a, b, hij, hj, ha, hb, rfl⟩ :=
        mem_bbdPairRuns (usableBbd factors) hnd m hm
      exact isPairRun_pairEnumMap _ i j hij hj a b ha hb
    have h2 : (List.replicate c (bbdBase (usableBbd factors))).countP
        (fun coded => isPairRun coded) = 0 := by
      rw [List.countP_replicate, isPairRun_bbdBase _ hnd]
      simp
    rw [h1, h2, length_bbdPairRuns]
    omega
  · rw [hruns, List.countP_map]
    have hcomp : ((fun r : DesignRun => isCenterRun (r.coded.getD [])) ∘
        (fun coded : List (Nat × ℚ) =>
          ({ values := (usableBbd factors).foldl (fun m f =>
              rset m f.paramDefId
                ((levelsFromConfig f).getD
                  (bbdCodedIndex (rget coded f.paramDefId)) 0)) []
             coded := some coded } : DesignRun))) = fun coded => isCenterRun coded := rfl
    rw [hcomp, hperm.countP_eq, List.countP_append]
    have h1 : (bbdPairRuns (usableBbd factors)).countP (fun coded => isCenterRun coded) =
        0 := by
      rw [List.countP_eq_zero]
      intro m hm
      obtain ⟨i, j, a, b, hij, hj, ha, _, rfl⟩ :=
        mem_bbdPairRuns (usableBbd factors) hnd m hm
      have ha0 : a ≠ 0 := by rcases ha with h | h <;> simp [h]
      rw [isCenterRun_pairEnumMap _ i j hij hj a b ha0]
      simp
    have h2 : (List.replicate c (bbdBase (usableBbd factors))).countP
        (fun coded => isCenterRun coded) = c := by
      rw [List.countP_replicate, isCenterRun_bbdBase _ hnd]
      simp
    rw [h1, h2]
    omega
  · intro r hr f hf
    rw [hruns] at hr
    obtain ⟨coded, _, rfl⟩ := List.mem_map.mp hr
    have hlev : (levelsFromConfig f).length = 3 := by
      have := (List.mem_filter.mp hf).2
      simpa [usableBbd] using this
    have hvals : rget
        ((usableBbd factors).foldl (fun m f =>
          rset m f.paramDefId
            ((levelsFromConfig f).getD
              (bbdCodedIndex (rget coded f.paramDefId)) 0)) [])
        f.paramDefId =
        some ((levelsFromConfig f).getD
          (bbdCodedIndex (rget coded f.paramDefId)) 0) := by
      rw [bbdValues_eq_map (usableBbd factors) hnd coded]
      exact rget_keyed_map (fun f : FactorConfig => f.paramDefId)
        (fun f => (levelsFromConfig f).getD
          (bbdCodedIndex (rget coded f.paramDefId)) 0)
        (usableBbd factors) hnd f hf
    refine ⟨hlev, ?_, ?_, ?_⟩
    · intro hc
      show rget _ f.paramDefId = _
      rw [hvals]
      have : rget coded f.paramDefId = some (-1) := hc
      rw [this, bbdCodedIndex_neg1]
    · intro hc
      show rget _ f.paramDefId = _
      rw [hvals]
      have : rget coded f.paramDefId = some 0 := hc
      rw [this, bbdCodedIndex_zero]
    · intro hc
      show rget _ f.paramDefId = _
      rw [hvals]
      have : rget coded f.paramDefId = some 1 := hc
      rw [this, bbdCodedIndex_one]

/-- Concrete Box–Behnken scenario used to witness `bbd_design_spec`
(spec Scenario 2: three 3-level range factors, two center points). -/
def bbdScenarioFactors : List FactorConfig :=
  [{ paramDefId := 1, mode := .RANGE, rangeMin := some 80, rangeMax := some 120,
     levelCount := some 3 },
   { paramDefId := 2, mode := .RANGE, rangeMin := some 20, rangeMax := some 50,
     levelCount := some 3 },
   { paramDefId := 3, mode := .RANGE, rangeMin := some 92, rangeMax := some 98,
     levelCount := some 3 }]

/-- Witness for C1: the hypothesis of `bbd_design_spec` holds on the concrete
scenario and the theorem yields the `4·C(3,2) + 2 = 14`-run count. -/
theorem bbd_design_spec_witness :
    ((usableBbd bbdScenarioFactors).map (·.paramDefId)).Nodup ∧
      (buildBbdDesign bbdScenarioFactors 7 2).runs.length =
        4 * ((usableBbd bbdScenarioFactors).length.choose 2) + 2 ∧
      (buildBbdDesign bbdScenarioFactors 7 2).runs.countP
        (fun r => isCenterRun (r.coded.getD [])) = 2 :=
  ⟨by decide,
   (bbd_design_spec bbdScenarioFactors 7 2 (by decide)).1,
   (bbd_design_spec bbdScenarioFactors 7 2 (by decide)).2.2.2.2.1⟩

/-! ## Run preview estimator (`buildRunPreview`, `src/routes/experiments.ts`) -/

inductive DesignType
  | SIM
  | FFA
  | BBD
  | SCREEN
deriving DecidableEq, Repr, Inhabited

/-- A `param_configs` row as consumed by the preview and the materializer
(`list_json` is modelled by its parsed content). -/
structure ParamConfig where
  param_def_id : Nat
  active : Nat
  mode : FactorMode
  range_min_real : Option ℚ := none
  range_max_real : Option ℚ := none
  list_json : Option (List ℚ) := none
  level_count : Option Nat := none
  fixed_value_real : Option ℚ := none
deriving DecidableEq, Repr, Inhabited

/-- An input/output parameter definition (only the id takes part in the
algorithms). -/
structure ParamDef where
  id : Nat
deriving DecidableEq, Repr, Inhabited

/-- The DOE study row fields consumed by the preview and the generator.
`design_type` strings other than SIM/FFA/BBD fall into the SCREEN branch in
the source; the enum's `SCREEN` stands for all of them. -/
structure DoeRow where
  design_type : DesignType
  seed : Nat := 0
  center_points : Nat := 0
  max_runs : Nat := 0
  replicate_count : Nat := 1
  recipe_as_block : Nat := 0
deriving DecidableEq, Repr, Inhabited

/-- `new Map(configs.map(c => [c.param_def_id, c])).get pid`: with duplicate
keys a JS `Map` keeps the last entry. -/
def configMapGet (configs : List ParamConfig) (pid : Nat) : Option ParamConfig :=
  (configs.filter (fun c => c.param_def_id == pid)).getLast?

/-- `activeConfigs` of `buildRunPreview`: the configs of the input
parameters, restricted to `active === 1`, in input-parameter order. -/
def previewActiveConfigs (inputParams : List ParamDef) (configs : List ParamConfig) :
    List ParamConfig :=
  (inputParams.filterMap (fun p => configMapGet configs p.id)).filter
    (fun c => c.active == 1)

/-- The per-config level count used by the preview's `levelCounts` and
`simLevels` (two textually identical closures in the source). -/
def previewLevelCount (c : ParamConfig) : Nat :=
  match c.mode with
  | .LIST => (c.list_json.getD []).length
  | .RANGE => if c.level_count = some 3 then 3 else 2
  | .FIXED => 1

/-- The per-config `threeLevelFlags` entry of `buildRunPreview`.  For a BBD
experiment a RANGE config counts as 3-level as soon as both bounds are
present (`Number.isFinite`); otherwise `level_count === 3` is required. -/
def previewThreeLevel (dt : DesignType) (c : ParamConfig) : Bool :=
  match c.mode with
  | .LIST => (c.list_json.getD []).length == 3
  | .RANGE =>
    if dt = .BBD then c.range_min_real.isSome && c.range_max_real.isSome
    else c.level_count == some 3
  | .FIXED => false

structure RunPreview where
  totalRuns : Nat
  baseRuns : Nat
  recipeMultiplier : Nat
  replicateMultiplier : Nat
  formula : String
  warning : String
  k : Nat
deriving Repr

/-- The `simLevels.reduce((acc, val) => acc * Math.max(val, 1), 1)` fold. -/
def previewProduct (levels : List Nat) : Nat :=
  levels.foldl (fun acc val => acc * max val 1) 1

/-- `buildRunPreview` of `src/routes/experiments.ts`. -/
def buildRunPreview (doe : DoeRow) (inputParams : List ParamDef)
    (configs : List ParamConfig) (recipeIds : List Nat) : RunPreview :=
  let activeConfigs := previewActiveConfigs inputParams configs
  let levelCounts := activeConfigs.map previewLevelCount
  let threeLevelFlags := activeConfigs.map (previewThreeLevel doe.design_type)
  let bfwk : Nat × String × String × Nat :=
    match doe.design_type with
    | .SIM =>
      let simLevels := activeConfigs.map previewLevelCount
      let baseRuns := if simLevels.length == 0 then 0 else previewProduct simLevels
      (baseRuns, s!"SIM: product(levels) = {baseRuns}", "", 0)
    | .FFA =>
      let baseRuns := if levelCounts.length == 0 then 0 else previewProduct levelCounts
      (baseRuns, s!"FFA: product(levels) = {baseRuns}", "", 0)
    | .BBD =>
      let k := (threeLevelFlags.filter (fun b => b)).length
      let baseRuns := if 3 ≤ k then 4 * (k * (k - 1)) / 2 + doe.center_points else 0
      let warning :=
        if k < 3 then
          "BBD needs at least 3 factors with 3 levels. Currently: " ++ toString k ++
            ". Set Levels=3 or use LIST with 3 values."
        else ""
      (baseRuns, s!"BBD: 4*C(k,2)+center = {baseRuns} (k={k})", warning, k)
    | .SCREEN =>
      let n := levelCounts.length
      let fullCombos := if 0 < n then 2 ^ n else 0
      let baseRuns := min (if doe.max_runs == 0 then fullCombos else doe.max_runs) fullCombos
      (baseRuns, s!"SCREEN: min(max_runs, 2^k) = {baseRuns} (k={n})", "", 0)
  let recipeMultiplier :=
    if doe.recipe_as_block == 1 && decide (0 < recipeIds.length) then recipeIds.length
    else 1
  let replicateMultiplier := max doe.replicate_count 1
  { totalRuns := bfwk.1 * recipeMultiplier * replicateMultiplier
    baseRuns := bfwk.1
    recipeMultiplier := recipeMultiplier
    replicateMultiplier := replicateMultiplier
    formula := bfwk.2.1
    warning := bfwk.2.2.1
    k := bfwk.2.2.2 }

/-! ## Run materializer (`generateRuns` and helpers, experiments service) -/

/-- `configToFactor` of the experiments service. -/
def configToFactor (c : ParamConfig) (p : ParamDef) : FactorConfig :=
  { paramDefId := p.id
    mode := c.mode
    rangeMin := c.range_min_real
    rangeMax := c.range_max_real
    list := c.list_json
    levelCount := c.level_count
    fixedValue := c.fixed_value_real }

/-- `activeFactors` of `generateRuns`: active configs paired with their
input-parameter definition, in config order; configs without a matching
input parameter are dropped. -/
def activeFactorPairs (inputParams : List ParamDef) (configs : List ParamConfig) :
    List (ParamConfig × ParamDef) :=
  (configs.filter (fun c => c.active == 1)).filterMap
    (fun c => (inputParams.find? (fun p => p.id == c.param_def_id)).map (fun p => (c, p)))

/-- `factorConfigs` of `generateRuns` (for a BBD study every RANGE config is
forced to `level_count = 3`). -/
def factorConfigsFor (dt : DesignType) (inputParams : List ParamDef)
    (configs : List ParamConfig) : List FactorConfig :=
  (activeFactorPairs inputParams configs).map (fun cp =>
    if dt = .BBD ∧ cp.1.mode = .RANGE then
      configToFactor { cp.1 with level_count := some 3 } cp.2
    else configToFactor cp.1 cp.2)

/-- The design-builder dispatch of `generateRuns`. -/
def designRunsFor (doe : DoeRow) (inputParams : List ParamDef)
    (configs : List ParamConfig) : List DesignRun :=
  let fc := factorConfigsFor doe.design_type inputParams configs
  match doe.design_type with
  | .SIM => buildSimDesign fc doe.seed doe.max_runs
  | .FFA => buildFfaDesign fc doe.seed doe.max_runs
  | .BBD => (buildBbdDesign fc doe.seed doe.center_points).runs
  | .SCREEN => buildScreenDesign fc doe.seed doe.max_runs

/-- The sort key of `applyNonRandomizedParamOrder`: the run's value for the
non-randomized parameter, with a missing value mapped to `+∞`
(`Number.isFinite(undefined)` is false, so it becomes
`Number.POSITIVE_INFINITY`, sorting last). -/
def nrKey (pid : Nat) (r : DesignRun) : WithTop ℚ :=
  match rget r.values pid with
  | some v => (v : WithTop ℚ)
  | none => ⊤

/-- The comparator of `applyNonRandomizedParamOrder` as a total order on the
index-tagged runs: value ascending, original index as tie break. -/
abbrev nrRel (pid : Nat) (a b : Nat × DesignRun) : Prop :=
  nrKey pid a.2 < nrKey pid b.2 ∨
    (nrKey pid a.2 = nrKey pid b.2 ∧ a.1 ≤ b.1)

/-- `applyNonRandomizedParamOrder` of the experiments service.  The source
tags each run with its original index and sorts with a comparator that is a
strict total order on the tagged runs (value ascending, index tie-break), so
the JS sort's result is the unique sorted permutation, which a stable sort
(`insertionSort`) computes. -/
def applyNonRandomizedParamOrder (runs : List DesignRun) (pid : Nat) :
    List DesignRun :=
  ((runs.enum).insertionSort (nrRel pid)).map Prod.snd

/-- `deriveFallbackValue` of the experiments service. -/
def deriveFallbackValue (config : Option ParamConfig) : Option ℚ :=
  match config with
  | none => none
  | some c =>
    match c.mode with
    | .FIXED => c.fixed_value_real
    | .RANGE =>
      match c.range_min_real, c.range_max_real with
      | some mn, some mx => some ((mn + mx) / 2)
      | _, _ => none
    | .LIST =>
      match c.list_json with
      | none => none
      | some l => l.head?

/-- The per-input-parameter persisted `value_real` of `generateRuns`:
`baseRun.values[id] ?? deriveFallbackValue(config) ?? null`, with the config
located by `configs.find(cfg => cfg.param_def_id === id)`. -/
def materializedValue (configs : List ParamConfig) (values : List (Nat × ℚ))
    (inputId : Nat) : Option ℚ :=
  match rget values inputId with
  | some v => some v
  | none => deriveFallbackValue (configs.find? (fun c => c.param_def_id == inputId))

/-- Modelled from the spec: `stableHash` lives in `src/lib/hash.js`, which is
not among the sources.  The spec (§4.5) only requires a stable key of the
sorted factor-value pairs plus the blocking recipe id, so the key is modelled
as the pre-hash payload itself (an injective stand-in for the hash). -/
def buildReplicateKey (values : List (Nat × ℚ)) (recipeId : Option Nat)
    (includeRecipe : Bool) : List (Nat × ℚ) × Option Nat :=
  (values.insertionSort (fun a b => a.1 ≤ b.1), if includeRecipe then recipeId else none)

/-- `String(runOrder).padStart(3, "0")`. -/
def pad3 (n : Nat) : String :=
  let s := toString n
  String.mk (List.replicate (3 - s.length) '0') ++ s

/-- One persisted run row together with its `run_values` rows
(`value_text`/`value_tags_json` are constant `null` at generation and are
omitted). -/
structure RunValueRow where
  param_def_id : Nat
  value_real : Option ℚ
deriving DecidableEq, Repr

structure RunRecord where
  run_order : Nat
  run_code : String
  recipe_id : Option Nat
  replicate_key : List (Nat × ℚ) × Option Nat
  replicate_index : Nat
  done : Nat
  exclude_from_analysis : Nat
  values : List RunValueRow
deriving DecidableEq, Repr

/-- The pure core of `generateRuns` (experiments service): build the design,
apply the optional non-randomized re-sort, expand over recipes × replicates
in that nesting order and assign dense 1-based run orders and codes.  The
result models the bulk delete-and-insert for the design scope. -/
def generateRunsPure (experimentId : Nat) (doe : DoeRow)
    (inputParams outputParams : List ParamDef) (configs : List ParamConfig)
    (recipeIds : List Nat) (nonRandomizedParamId : Option Nat) :
    List RunRecord :=
  let designRuns := designRunsFor doe inputParams configs
  let designRuns2 :=
    match nonRandomizedParamId with
    | some pid => if pid == 0 then designRuns else applyNonRandomizedParamOrder designRuns pid
    | none => designRuns
  let recipeBlock := doe.recipe_as_block == 1 && decide (0 < recipeIds.length)
  let recipeList : List (Option Nat) :=
    if recipeBlock then recipeIds.map some
    else if recipeIds.length == 1 then [some (recipeIds.getD 0 0)]
    else [none]
  let triples := recipeList.flatMap (fun rid =>
    designRuns2.flatMap (fun base =>
      (List.range doe.replicate_count).map (fun r => (rid, base, r))))
  triples.enum.map (fun it =>
    { run_order := it.1 + 1
      run_code := "E" ++ toString experimentId ++ "-R" ++ pad3 (it.1 + 1)
      recipe_id := it.2.1
      replicate_key := buildReplicateKey it.2.2.1.values it.2.1 recipeBlock
      replicate_index := it.2.2.2 + 1
      done := 0
      exclude_from_analysis := 0
      values :=
        inputParams.map (fun p =>
          { param_def_id := p.id
            value_real := materializedValue configs it.2.2.1.values p.id }) ++
        outputParams.map (fun p => ({ param_def_id := p.id, value_real := none } : RunValueRow)) })

/-- The `POST /experiments/:id/doe/:doeId/generate` route: refuse (redirect
with the preview's warning, generating nothing) when the design is BBD and
the preview's usable-factor count is below 3, otherwise regenerate the
scope's runs. -/
def postGenerate (experimentId : Nat) (doe : DoeRow)
    (inputParams outputParams : List ParamDef) (configs : List ParamConfig)
    (recipeIds : List Nat) (nonRandomizedParamId : Option Nat) :
    Option (List RunRecord) :=
  let preview := buildRunPreview doe inputParams configs recipeIds
  if doe.design_type = .BBD ∧ preview.k < 3 then none
  else some (generateRunsPure experimentId doe inputParams outputParams configs
    recipeIds nonRandomizedParamId)

/-! ## Claims about the preview and the generation route -/

/-- C2: for every BBD generation request whose usable 3-level factor count
(the preview's `threeLevelFlags` count) is below 3, the preview's `k` is that
count, its `warning` is non-empty, its `baseRuns` is 0, and the generate
route refuses before calling the materializer, so no runs are generated for
the scope. -/
theorem bbd_preview_refusal (doe : DoeRow) (inputParams : List ParamDef)
    (configs : List ParamConfig) (recipeIds : List Nat)
    (hbbd : doe.design_type = .BBD)
    (hk : (((previewActiveConfigs inputParams configs).map
        (previewThreeLevel doe.design_type)).filter (fun b => b)).length < 3) :
    (buildRunPreview doe inputParams configs recipeIds).k =
        (((previewActiveConfigs inputParams configs).map
          (previewThreeLevel doe.design_type)).filter (fun b => b)).length
    ∧ (buildRunPreview doe inputParams configs recipeIds).warning ≠ ""
    ∧ (buildRunPreview doe inputParams configs recipeIds).baseRuns = 0
    ∧ ∀ (experimentId : Nat) (outputParams : List ParamDef)
        (nrp : Option Nat),
        postGenerate experimentId doe inputParams outputParams configs recipeIds
          nrp = none := by
  have hk2 := hk
  rw [hbbd] at hk2
  have hkfield : (buildRunPreview doe inputParams configs recipeIds).k =
      (((previewActiveConfigs inputParams configs).map
        (previewThreeLevel doe.design_type)).filter (fun b => b)).length := by
    simp [buildRunPreview, hbbd]
  refine ⟨hkfield, ?_, ?_, ?_⟩
  · have hwarn : (buildRunPreview doe inputParams configs recipeIds).warning =
        "BBD needs at least 3 factors with 3 levels. Currently: " ++
          toString (((previewActiveConfigs inputParams configs).map
            (previewThreeLevel DesignType.BBD)).filter (fun b => b)).length ++
          ". Set Levels=3 or use LIST with 3 values." := by
      simp [buildRunPreview, hbbd, hk2]
    rw [hwarn]
    intro h
    have h2 := congrArg String.length h
    rw [String.length_append, String.length_append] at h2
    have hpre : (0 : Nat) <
        ("BBD needs at least 3 factors with 3 levels. Currently: " : String).length := by
      decide
    have hemp : ("" : String).length = 0 := rfl
    omega
  · simp [buildRunPreview, hbbd, Nat.not_le.mpr hk2]
  · intro experimentId outputParams nrp
    rw [postGenerate]
    rw [if_pos ⟨hbbd, by rw [hkfield]; exact hk⟩]

/-- The concrete BBD study of spec Scenario 5 (only two usable 3-level
factors). -/
def bbdRefusalDoe : DoeRow :=
  { design_type := .BBD, seed := 5, center_points := 2, max_runs := 50 }

def bbdRefusalConfigs : List ParamConfig :=
  [{ param_def_id := 1, active := 1, mode := .RANGE, range_min_real := some 1,
     range_max_real := some 3, level_count := some 3 },
   { param_def_id := 2, active := 1, mode := .RANGE, range_min_real := some 4,
     range_max_real := some 8, level_count := some 3 }]

/-- Witness for C2 at Scenario 5's concrete input. -/
theorem bbd_preview_refusal_witness :
    (((previewActiveConfigs [⟨1⟩, ⟨2⟩] bbdRefusalConfigs).map
        (previewThreeLevel bbdRefusalDoe.design_type)).filter (fun b => b)).length < 3
    ∧ (buildRunPreview bbdRefusalDoe [⟨1⟩, ⟨2⟩] bbdRefusalConfigs []).warning ≠ ""
    ∧ (buildRunPreview bbdRefusalDoe [⟨1⟩, ⟨2⟩] bbdRefusalConfigs []).baseRuns = 0
    ∧ postGenerate 9 bbdRefusalDoe [⟨1⟩, ⟨2⟩] [] bbdRefusalConfigs [] none = none :=
  ⟨by decide,
   (bbd_preview_refusal bbdRefusalDoe [⟨1⟩, ⟨2⟩] bbdRefusalConfigs [] rfl
      (by decide)).2.1,
   (bbd_preview_refusal bbdRefusalDoe [⟨1⟩, ⟨2⟩] bbdRefusalConfigs [] rfl
      (by decide)).2.2.1,
   (bbd_preview_refusal bbdRefusalDoe [⟨1⟩, ⟨2⟩] bbdRefusalConfigs [] rfl
      (by decide)).2.2.2 9 [] none⟩

/-- A SIM study whose level product (3) exceeds `max_runs` (2). -/
def simTruncDoe : DoeRow := { design_type := .SIM, seed := 5, max_runs := 2 }

def simTruncConfigs : List ParamConfig :=
  [{ param_def_id := 1, active := 1, mode := .LIST, list_json := some [1, 2, 3] }]

/-- C3 counterexample: on a single active LIST factor with 3 levels and
`max_runs = 2`, the SIM builder produces `min(maxRuns, Π levels) = 2` runs
but the preview's `baseRuns` is 3 — the preview formula omits the `maxRuns`
truncation, so it is not the builder's formula. -/
theorem sim_preview_truncation_counterexample :
    (buildRunPreview simTruncDoe [⟨1⟩] simTruncConfigs []).baseRuns = 3
    ∧ (designRunsFor simTruncDoe [⟨1⟩] simTruncConfigs).length = 2
    ∧ min simTruncDoe.max_runs ([(1 : ℚ), 2, 3].length) = 2
    ∧ (buildRunPreview simTruncDoe [⟨1⟩] simTruncConfigs []).baseRuns ≠
        (designRunsFor simTruncDoe [⟨1⟩] simTruncConfigs).length := by
  decide

/-! ## Claims about the materializer's fallback values -/

/-- A SIM study with one well-formed RANGE factor and one active RANGE
factor missing its upper bound. -/
def fallbackDoe : DoeRow := { design_type := .SIM, seed := 3, max_runs := 200 }

def fallbackGoodConfig : ParamConfig :=
  { param_def_id := 1, active := 1, mode := .RANGE, range_min_real := some 0,
    range_max_real := some 10 }

def fallbackBadConfig : ParamConfig :=
  { param_def_id := 2, active := 1, mode := .RANGE, range_min_real := some 1,
    range_max_real := none }

/-- C4 counterexample: parameter 2 is an active input factor (its config is
found and `active = 1`), two runs are materialized, and every persisted
value for parameter 2 is null — the design supplied no value (a RANGE factor
with a missing bound has no levels) and the fallback is also null, so a
materialized active factor's persisted value is not always numeric. -/
theorem materializer_null_counterexample :
    ((fallbackGoodConfig :: [fallbackBadConfig]).find?
        (fun c => c.param_def_id == 2)) = some fallbackBadConfig
    ∧ fallbackBadConfig.active = 1
    ∧ (generateRunsPure 1 fallbackDoe [⟨1⟩, ⟨2⟩] []
        [fallbackGoodConfig, fallbackBadConfig] [] none).length = 2
    ∧ (generateRunsPure 1 fallbackDoe [⟨1⟩, ⟨2⟩] []
        [fallbackGoodConfig, fallbackBadConfig] [] none).all
        (fun r => r.values.any
          (fun v => v.param_def_id == 2 && v.value_real.isNone)) = true := by
  decide

/-- C4 amended: the persisted value for an input factor is the builder's
design value when present, else the fallback derived from the factor's
config — the midpoint when a RANGE config has both bounds, the first
element when a LIST config has a non-empty list, the fixed value of a FIXED
config — and it is null when the design value is absent and no fallback is
derivable. -/
theorem materializedValue_spec (configs : List ParamConfig)
    (values : List (Nat × ℚ)) (inputId : Nat) :
    (∀ v, rget values inputId = some v →
        materializedValue configs values inputId = some v)
    ∧ (rget values inputId = none →
        materializedValue configs values inputId =
          deriveFallbackValue (configs.find? (fun c => c.param_def_id == inputId)))
    ∧ deriveFallbackValue none = none
    ∧ ∀ c : ParamConfig,
        (c.mode = .FIXED → deriveFallbackValue (some c) = c.fixed_value_real)
        ∧ (∀ mn mx, c.mode = .RANGE → c.range_min_real = some mn →
            c.range_max_real = some mx →
            deriveFallbackValue (some c) = some ((mn + mx) / 2))
        ∧ (c.mode = .RANGE → c.range_min_real = none ∨ c.range_max_real = none →
            deriveFallbackValue (some c) = none)
        ∧ (∀ l, c.mode = .LIST → c.list_json = some l →
            deriveFallbackValue (some c) = l.head?)
        ∧ (c.mode = .LIST → c.list_json = none → deriveFallbackValue (some c) = none) := by
  refine ⟨?_, ?_, rfl, ?_⟩
  · intro v hv
    rw [materializedValue, hv]
  · intro hv
    rw [materializedValue, hv]
  · intro c
    refine ⟨?_, ?_, ?_, ?_, ?_⟩
    · intro hm
      rw [deriveFallbackValue, hm]
    · intro mn mx hm hmn hmx
      rw [deriveFallbackValue, hm, hmn, hmx]
    · intro hm hbounds
      rw [deriveFallbackValue, hm]
      rcases hbounds with h | h
      · rw [h]
      · rw [h]
        cases c.range_min_real <;> rfl
    · intro l hm hl
      rw [deriveFallbackValue, hm, hl]
    · intro hm hl
      rw [deriveFallbackValue, hm, hl]

/-- Witness for the amended C4: midpoint fallback, design-value passthrough
and the null case, all at concrete inputs. -/
theorem materializedValue_spec_witness :
    materializedValue [fallbackGoodConfig] [(1, 4)] 1 = some 4
    ∧ materializedValue [fallbackGoodConfig] [] 1 = some 5
    ∧ materializedValue [fallbackBadConfig] [] 2 = none :=
  ⟨(materializedValue_spec [fallbackGoodConfig] [(1, 4)] 1).1 4 rfl,
   by
    have h := (materializedValue_spec [fallbackGoodConfig] [] 1).2.1 rfl
    rw [h]
    have h2 := ((materializedValue_spec [fallbackGoodConfig] [] 1).2.2.2
      fallbackGoodConfig).2.1 0 10 rfl rfl rfl
    have hfind : ([fallbackGoodConfig].find? (fun c => c.param_def_id == 1)) =
        some fallbackGoodConfig := rfl
    rw [hfind, h2]
    norm_num,
   by
    have h := (materializedValue_spec [fallbackBadConfig] [] 2).2.1 rfl
    rw [h]
    have h2 := ((materializedValue_spec [fallbackBadConfig] [] 2).2.2.2
      fallbackBadConfig).2.2.1 rfl (Or.inr rfl)
    have hfind : ([fallbackBadConfig].find? (fun c => c.param_def_id == 2)) =
        some fallbackBadConfig := rfl
    rw [hfind, h2]⟩

/-! ## The non-randomized-parameter re-sort -/

theorem nrRel_trans (pid : Nat) : ∀ a b c : Nat × DesignRun,
    nrRel pid a b → nrRel pid b c → nrRel pid a c := by
  intro a b c hab hbc
  rcases hab with h1 | ⟨h1, h1'⟩ <;> rcases hbc with h2 | ⟨h2, h2'⟩
  · exact Or.inl (lt_trans h1 h2)
  · exact Or.inl (lt_of_lt_of_le h1 (le_of_eq h2))
  · exact Or.inl (lt_of_le_of_lt (le_of_eq h1) h2)
  · exact Or.inr ⟨h1.trans h2, le_trans h1' h2'⟩

theorem nrRel_total (pid : Nat) : ∀ a b : Nat × DesignRun,
    nrRel pid a b ∨ nrRel pid b a := by
  intro a b
  rcases lt_trichotomy (nrKey pid a.2) (nrKey pid b.2) with h | h | h
  · exact Or.inl (Or.inl h)
  · rcases Nat.le_total a.1 b.1 with h' | h'
    · exact Or.inl (Or.inr ⟨h, h'⟩)
    · exact Or.inr (Or.inr ⟨h.symm, h'⟩)
  · exact Or.inr (Or.inl h)

theorem flatMap_pure {α β : Type} (l : List α) (g : α → β) :
    l.flatMap (fun x => [g x]) = l.map g := by
  induction l with
  | nil => rfl
  | cons x l ih => simp [ih]

/-- C5: `applyNonRandomizedParamOrder` stably re-sorts the full design-run
list by the configured parameter's value ascending: the output is a
permutation of the input; the index-tagged sorted list is pairwise ordered
by (value, original index), so a run with a missing value (key `⊤`) sorts
after every run with a value and ties keep their original relative order;
and the sort happens before run orders/codes are assigned — with a single
recipe pass and one replicate, the record built from sorted position `t`
receives run order `t + 1`. -/
theorem applyNonRandomizedParamOrder_spec (runs : List DesignRun) (pid : Nat) :
    (applyNonRandomizedParamOrder runs pid).Perm runs
    ∧ List.Pairwise (fun a b : Nat × DesignRun =>
        nrKey pid a.2 < nrKey pid b.2 ∨
          (nrKey pid a.2 = nrKey pid b.2 ∧ a.1 ≤ b.1))
        ((runs.enum).insertionSort (nrRel pid))
    ∧ applyNonRandomizedParamOrder runs pid =
        ((runs.enum).insertionSort (nrRel pid)).map Prod.snd
    ∧ (∀ (eid : Nat) (doe : DoeRow) (inP outP : List ParamDef)
        (configs : List ParamConfig) (q : Nat), q ≠ 0 → doe.replicate_count = 1 →
        (generateRunsPure eid doe inP outP configs [] (some q)).map
            (fun r => (r.run_order, r.values)) =
          (applyNonRandomizedParamOrder (designRunsFor doe inP configs) q).enum.map
            (fun it => (it.1 + 1,
              inP.map (fun p =>
                (⟨p.id, materializedValue configs it.2.values p.id⟩ : RunValueRow)) ++
              outP.map (fun p => (⟨p.id, none⟩ : RunValueRow))))) := by
  refine ⟨?_, ?_, rfl, ?_⟩
  · have hperm := List.perm_insertionSort (nrRel pid) runs.enum
    have := hperm.map Prod.snd
    rw [List.enum_map_snd] at this
    exact this
  · haveI : IsTrans (Nat × DesignRun) (nrRel pid) := ⟨nrRel_trans pid⟩
    haveI : IsTotal (Nat × DesignRun) (nrRel pid) := ⟨nrRel_total pid⟩
    exact List.sorted_insertionSort (nrRel pid) runs.enum
  · intro eid doe inP outP configs q hq hrep
    have hq' : (q == 0) = false := by simpa using hq
    rw [generateRunsPure]
    have hblock : ((doe.recipe_as_block == 1) && decide ((0 : Nat) < 0)) = false := by
      simp
    simp only [hblock, hq', hrep, Bool.false_eq_true, if_false, List.length_nil,
      show ((0 : Nat) == 1) = false from rfl]
    rw [List.flatMap_cons, List.flatMap_nil, List.append_nil]
    have hr1 : List.range 1 = [0] := rfl
    rw [hr1]
    have htr : (applyNonRandomizedParamOrder (designRunsFor doe inP configs) q).flatMap
        (fun base => [((none : Option Nat), base, (0 : Nat))]) =
        (applyNonRandomizedParamOrder (designRunsFor doe inP configs) q).map
          (fun base => ((none : Option Nat), base, (0 : Nat))) :=
      flatMap_pure _ _
    simp only [List.map_cons, List.map_nil, htr, List.enum_map, List.map_map]
    apply List.map_congr_left
    intro it _
    rfl

/-- A SIM study with a non-randomized parameter configured, used to witness
the generation-order conjunct of `applyNonRandomizedParamOrder_spec`. -/
def nrWitnessDoe : DoeRow :=
  { design_type := .SIM, seed := 11, max_runs := 10, replicate_count := 1 }

def nrWitnessConfigs : List ParamConfig :=
  [{ param_def_id := 1, active := 1, mode := .LIST, list_json := some [7, 3, 5] }]

/-- Witness for C5: the hypotheses of the order-assignment conjunct hold at a
concrete study, and the materialized (run_order, values) sequence equals the
enumeration of the stably sorted design list. -/
theorem applyNonRandomizedParamOrder_spec_witness :
    (1 : Nat) ≠ 0 ∧ nrWitnessDoe.replicate_count = 1 ∧
      (generateRunsPure 2 nrWitnessDoe [⟨1⟩] [] nrWitnessConfigs [] (some 1)).map
          (fun r => (r.run_order, r.values)) =
        (applyNonRandomizedParamOrder (designRunsFor nrWitnessDoe [⟨1⟩] nrWitnessConfigs)
            1).enum.map
          (fun it => (it.1 + 1,
            [(⟨1⟩ : ParamDef)].map (fun p =>
              (⟨p.id, materializedValue nrWitnessConfigs it.2.values p.id⟩ : RunValueRow)) ++
            ([] : List ParamDef).map (fun p => (⟨p.id, none⟩ : RunValueRow)))) :=
  ⟨by decide, rfl,
   (applyNonRandomizedParamOrder_spec [] 1).2.2.2 2 nrWitnessDoe [⟨1⟩] []
     nrWitnessConfigs 1 (by decide) rfl⟩

/-! ## SIM preview versus SIM builder (claim C3) -/

theorem cartesian_foldl_length {α : Type} :
    ∀ (sets : List (List α)) (acc : List (List α)),
      (sets.foldl (fun acc set =>
        acc.flatMap (fun pre => set.map (fun item => pre ++ [item]))) acc).length =
      acc.length * (sets.map List.length).prod
  | [], acc => by simp
  | set :: sets, acc => by
    rw [List.foldl_cons, cartesian_foldl_length sets _]
    have hstep : (acc.flatMap (fun pre => set.map (fun item => pre ++ [item]))).length =
        acc.length * set.length := by
      rw [List.length_flatMap]
      have hconst := List.eq_replicate_of_mem (a := set.length)
        (l := acc.map (List.length ∘ fun pre => set.map (fun item => pre ++ [item])))
        (by
          intro x hx
          obtain ⟨pre, _, rfl⟩ := List.mem_map.mp hx
          simp [Function.comp])
      rw [hconst, List.sum_replicate, smul_eq_mul, List.length_map]
    rw [hstep, List.map_cons, List.prod_cons, Nat.mul_assoc]

theorem cartesian_length {α : Type} (sets : List (List α)) :
    (cartesian sets).length = (sets.map List.length).prod := by
  rw [cartesian, cartesian_foldl_length]
  simp

theorem previewProduct_go :
    ∀ (l : List Nat) (a : Nat),
      l.foldl (fun acc val => acc * max val 1) a = a * (l.map (fun v => max v 1)).prod
  | [], a => by simp
  | v :: l, a => by
    rw [List.foldl_cons, previewProduct_go l _, List.map_cons, List.prod_cons,
      Nat.mul_assoc]

theorem previewProduct_eq_prod (l : List Nat) :
    previewProduct l = (l.map (fun v => max v 1)).prod := by
  rw [previewProduct, previewProduct_go, Nat.one_mul]

theorem prod_filter_levels {α : Type} (g : α → Nat) :
    ∀ (l : List α),
      ((l.filter (fun x => !(g x == 0))).map g).prod =
        (l.map (fun x => max (g x) 1)).prod
  | [] => rfl
  | x :: l => by
    rw [List.filter_cons, List.map_cons, List.prod_cons]
    by_cases h : g x = 0
    · rw [if_neg (by simp [h])]
      rw [prod_filter_levels g l, h, show max 0 1 = 1 from rfl, Nat.one_mul]
    · rw [if_pos (by simp [h]), List.map_cons, List.prod_cons, prod_filter_levels g l]
      have : max (g x) 1 = g x := by omega
      rw [this]

theorem filterMap_configMapGet_aligned :
    ∀ (configs : List ParamConfig) (inP : List ParamDef),
      inP.map (·.id) = configs.map (·.param_def_id) →
      (configs.map (·.param_def_id)).Nodup →
      inP.filterMap (fun p => configMapGet configs p.id) = configs
  | [], inP, hids, _ => by
    have : inP = [] := by
      have := hids
      simp only [List.map_nil] at this
      exact List.map_eq_nil_iff.mp this
    simp [this]
  | c :: cs, inP, hids, hnd => by
    match inP, hids with
    | p :: ps, hids =>
      have hpc : p.id = c.param_def_id := by
        simpa using congrArg (fun l => l.headD 0) hids
      have htail : ps.map (·.id) = cs.map (·.param_def_id) := by
        simpa using congrArg List.tail hids
      have hnotin : c.param_def_id ∉ cs.map (·.param_def_id) := by
        have := hnd
        simp only [List.map_cons, List.nodup_cons] at this
        exact this.1
      have hhead : configMapGet (c :: cs) p.id = some c := by
        rw [configMapGet, List.filter_cons, if_pos (by simpa using hpc.symm)]
        have hrest : cs.filter (fun c' => c'.param_def_id == p.id) = [] := by
          rw [List.filter_eq_nil_iff]
          intro c' hc'
          simp only [beq_iff_eq]
          intro hEq
          exact hnotin (hpc ▸ hEq ▸ List.mem_map_of_mem (·.param_def_id) hc')
        rw [hrest]
        exact List.getLast?_singleton c
      have htl : ps.filterMap (fun p' => configMapGet (c :: cs) p'.id) =
          ps.filterMap (fun p' => configMapGet cs p'.id) := by
        apply List.filterMap_congr
        intro p' hp'
        have hp'mem : p'.id ∈ cs.map (·.param_def_id) := by
          rw [← htail]
          exact List.mem_map_of_mem (·.id) hp'
        have hne : c.param_def_id ≠ p'.id := fun hEq => hnotin (hEq ▸ hp'mem)
        rw [configMapGet, configMapGet, List.filter_cons,
          if_neg (by simpa using hne)]
      rw [List.filterMap_cons, hhead, htl,
        filterMap_configMapGet_aligned cs ps htail
          (by
            have := hnd
            simp only [List.map_cons, List.nodup_cons] at this
            exact this.2)]

theorem previewActiveConfigs_aligned (configs : List ParamConfig)
    (inP : List ParamDef)
    (hids : inP.map (·.id) = configs.map (·.param_def_id))
    (hnd : (configs.map (·.param_def_id)).Nodup) :
    previewActiveConfigs inP configs = configs.filter (fun c => c.active == 1) := by
  rw [previewActiveConfigs, filterMap_configMapGet_aligned configs inP hids hnd]

theorem activeFactorPairs_aligned (configs : List ParamConfig)
    (inP : List ParamDef)
    (hids : inP.map (·.id) = configs.map (·.param_def_id)) :
    activeFactorPairs inP configs =
      (configs.filter (fun c => c.active == 1)).map
        (fun c => (c, (⟨c.param_def_id⟩ : ParamDef))) := by
  rw [activeFactorPairs]
  have hpt : ∀ c ∈ configs.filter (fun c => c.active == 1),
      (inP.find? (fun p => p.id == c.param_def_id)).map (fun p => (c, p)) =
        some (c, (⟨c.param_def_id⟩ : ParamDef)) := by
    intro c hc
    have hmem : c.param_def_id ∈ inP.map (·.id) := by
      rw [hids]
      exact List.mem_map_of_mem (·.param_def_id) (List.mem_of_mem_filter hc)
    obtain ⟨p, hp, hpid⟩ := List.mem_map.mp hmem
    cases hfind : inP.find? (fun p => p.id == c.param_def_id) with
    | none =>
      exact absurd (by simpa using hpid) (List.find?_eq_none.mp hfind p hp)
    | some p' =>
      have hp' : p'.id = c.param_def_id := by simpa using List.find?_some hfind
      have : p' = (⟨c.param_def_id⟩ : ParamDef) := by
        cases p'
        simpa using hp'
      rw [this]
      rfl
  calc (configs.filter (fun c => c.active == 1)).filterMap
        (fun c => (inP.find? (fun p => p.id == c.param_def_id)).map (fun p => (c, p)))
      = (configs.filter (fun c => c.active == 1)).filterMap
          (fun c => some (c, (⟨c.param_def_id⟩ : ParamDef))) :=
        List.filterMap_congr hpt
    _ = (configs.filter (fun c => c.active == 1)).map
          (fun c => (c, (⟨c.param_def_id⟩ : ParamDef))) := by
        rw [show (fun c : ParamConfig => some (c, (⟨c.param_def_id⟩ : ParamDef))) =
          some ∘ (fun c : ParamConfig => (c, (⟨c.param_def_id⟩ : ParamDef))) from rfl]
        rw [List.filterMap_eq_map]

theorem buildSimDesign_length (factors : List FactorConfig) (seed maxRuns : Nat) :
    (buildSimDesign factors seed maxRuns).length =
      min maxRuns
        (((factors.filter (fun f => !((levelsFromConfig f).length == 0))).map
          (fun f => (levelsFromConfig f).length)).prod) := by
  rw [buildSimDesign]
  rw [(seededShuffle_perm _ _).length_eq, List.length_map, List.length_take,
    cartesian_length, List.map_map]
  rfl

/-- C3 amended: the SIM preview's `baseRuns` is the product over the active
factors of their configured level counts (each clamped to at least 1) with
no `maxRuns` truncation; it agrees with the SIM builder's run count exactly
when at least one factor is active, every active RANGE factor has both
bounds, and that product does not exceed `max_runs` — otherwise the builder
truncates and the preview does not. -/
theorem sim_preview_vs_builder (doe : DoeRow) (inP : List ParamDef)
    (configs : List ParamConfig) (recipeIds : List Nat)
    (hsim : doe.design_type = .SIM)
    (hids : inP.map (·.id) = configs.map (·.param_def_id))
    (hnd : (configs.map (·.param_def_id)).Nodup)
    (hrange : ∀ c ∈ configs, c.active = 1 → c.mode = .RANGE →
      c.range_min_real.isSome = true ∧ c.range_max_real.isSome = true)
    (hactive : configs.filter (fun c => c.active == 1) ≠ [])
    (hle : (buildRunPreview doe inP configs recipeIds).baseRuns ≤ doe.max_runs) :
    (buildRunPreview doe inP configs recipeIds).baseRuns =
      ((configs.filter (fun c => c.active == 1)).map
        (fun c => max (previewLevelCount c) 1)).prod
    ∧ (buildRunPreview doe inP configs recipeIds).baseRuns =
      (designRunsFor doe inP configs).length := by
  have hact := previewActiveConfigs_aligned configs inP hids hnd
  have hbase : (buildRunPreview doe inP configs recipeIds).baseRuns =
      ((configs.filter (fun c => c.active == 1)).map
        (fun c => max (previewLevelCount c) 1)).prod := by
    have hne : ((previewActiveConfigs inP configs).map previewLevelCount).length ≠ 0 := by
      rw [hact]
      simpa using hactive
    simp only [buildRunPreview, hsim]
    simp only [show (((previewActiveConfigs inP configs).map previewLevelCount).length
        == 0) = false from by simpa using hne, Bool.false_eq_true, if_false]
    rw [previewProduct_eq_prod, hact, List.map_map]
    rfl
  refine ⟨hbase, ?_⟩
  -- the builder side
  have hfc : factorConfigsFor doe.design_type inP configs =
      (configs.filter (fun c => c.active == 1)).map
        (fun c => configToFactor c (⟨c.param_def_id⟩ : ParamDef)) := by
    rw [factorConfigsFor, activeFactorPairs_aligned configs inP hids, List.map_map]
    apply List.map_congr_left
    intro c _
    have : ¬(doe.design_type = DesignType.BBD ∧ c.mode = FactorMode.RANGE) := by
      rw [hsim]
      rintro ⟨h, -⟩
      cases h
    simp [Function.comp, this]
  have hdr : designRunsFor doe inP configs =
      buildSimDesign (factorConfigsFor doe.design_type inP configs) doe.seed
        doe.max_runs := by
    rw [designRunsFor]
    rcases doe with ⟨dt, s, cp, mr, rc, rb⟩
    cases hsim
    rfl
  have hmax : ∀ c ∈ configs.filter (fun c => c.active == 1),
      max ((levelsFromConfig (configToFactor c (⟨c.param_def_id⟩ : ParamDef))).length) 1 =
        max (previewLevelCount c) 1 := by
    intro c hc
    have hcmem := List.mem_of_mem_filter hc
    have hcact : c.active = 1 := by
      have := (List.mem_filter.mp hc).2
      simpa using this
    cases hmode : c.mode with
    | LIST =>
      simp [levelsFromConfig, configToFactor, previewLevelCount, hmode]
    | RANGE =>
      obtain ⟨hmn, hmx⟩ := hrange c hcmem hcact hmode
      obtain ⟨mn, hmn'⟩ := Option.isSome_iff_exists.mp hmn
      obtain ⟨mx, hmx'⟩ := Option.isSome_iff_exists.mp hmx
      by_cases hlc : c.level_count = some 3
      · simp [levelsFromConfig, configToFactor, previewLevelCount, hmode, hmn', hmx', hlc]
      · simp [levelsFromConfig, configToFactor, previewLevelCount, hmode, hmn', hmx', hlc]
    | FIXED =>
      cases hfx : c.fixed_value_real with
      | none => simp [levelsFromConfig, configToFactor, previewLevelCount, hmode, hfx]
      | some v => simp [levelsFromConfig, configToFactor, previewLevelCount, hmode, hfx]
  have hprod : (((factorConfigsFor doe.design_type inP configs).filter
        (fun f => !((levelsFromConfig f).length == 0))).map
      (fun f => (levelsFromConfig f).length)).prod =
      ((configs.filter (fun c => c.active == 1)).map
        (fun c => max (previewLevelCount c) 1)).prod := by
    rw [prod_filter_levels (fun f => (levelsFromConfig f).length), hfc, List.map_map]
    apply congrArg List.prod
    apply List.map_congr_left
    intro c hc
    exact hmax c hc
  rw [hdr, buildSimDesign_length, hprod, hbase]
  have hle' := hle
  rw [hbase] at hle'
  omega

/-- Concrete aligned SIM study for the witness of `sim_preview_vs_builder`:
two active factors (2 × 3 levels) and `max_runs = 100`. -/
def simAgreeDoe : DoeRow := { design_type := .SIM, seed := 7, max_runs := 100 }

def simAgreeConfigs : List ParamConfig :=
  [{ param_def_id := 1, active := 1, mode := .RANGE, range_min_real := some 0,
     range_max_real := some 10 },
   { param_def_id := 2, active := 1, mode := .LIST, list_json := some [1, 2, 3] }]

/-- Witness for the amended C3: on spec Scenario 1's configuration the
preview and the builder agree on 6 = 2 × 3 runs. -/
theorem sim_preview_vs_builder_witness :
    (buildRunPreview simAgreeDoe [⟨1⟩, ⟨2⟩] simAgreeConfigs []).baseRuns =
        (designRunsFor simAgreeDoe [⟨1⟩, ⟨2⟩] simAgreeConfigs).length
    ∧ (buildRunPreview simAgreeDoe [⟨1⟩, ⟨2⟩] simAgreeConfigs []).baseRuns = 6 :=
  ⟨(sim_preview_vs_builder simAgreeDoe [⟨1⟩, ⟨2⟩] simAgreeConfigs [] rfl (by decide)
      (by decide)
      (by
        intro c hc hact hmode
        fin_cases hc <;> simp_all)
      (by decide) (by decide)).2,
   by decide⟩

/-! ## Qualification derived-value engine
(`recomputeDerivedAndSummary`, `src/services/qualification_service.ts`)

A run's stored values are a map from field id to the
`(value_real, value_text, value_tags_json)` triple; step settings are
modelled per slot as either a parsed numeric literal (`lit (some q)`), a
non-numeric/empty literal (`lit none`), or a whole-string machine token
`%machineId:paramId%`; the machine parameter map carries the numeric parse
of each parameter's `value_text` (`none` when it does not parse). -/

inductive QualFieldType
  | number
  | text
  | tag
  | boolean
deriving DecidableEq, Repr, Inhabited

structure QualField where
  id : Nat
  code : String
  field_type : QualFieldType
  is_derived : Bool := false
deriving DecidableEq, Repr, Inhabited

structure QualValue where
  value_real : Option ℚ := none
  value_text : Option String := none
  value_tags_json : Option String := none
deriving DecidableEq, Repr, Inhabited

/-- `new Map(fields.map(f => [f.code, f])).get code` (last entry wins). -/
def fieldByCode (fields : List QualField) (code : String) : Option QualField :=
  (fields.filter (fun f => f.code == code)).getLast?

/-- `getNumber` of `recomputeDerivedAndSummary`:
`valueMap.get(field.id)?.value_real ?? null`. -/
def getNumber (fields : List QualField) (store : List (Nat × QualValue))
    (code : String) : Option ℚ :=
  match fieldByCode fields code with
  | none => none
  | some f =>
    match rget store f.id with
    | some v => v.value_real
    | none => none

inductive SettingVal
  | lit (v : Option ℚ)
  | token (machineId paramId : Nat)
deriving DecidableEq, Repr

/-- The step-settings slots consumed by the derived-value engine. -/
structure StepSettings where
  intensification_coeff : Option SettingVal := none
  target_weight_g : Option SettingVal := none
  machine_max_pressure_bar : Option SettingVal := none
  recommended_inj_speed : Option SettingVal := none
deriving DecidableEq, Repr, Inhabited

/-- `resolveSettingNumber` of `recomputeDerivedAndSummary` (lines 404–417):
a null/absent raw value and an empty or non-numeric literal give `NaN`
(`none`); a `%machineId:paramId%` token is looked up in the machine
parameter map — if the key is absent the token survives the substitution
and the result is `NaN` (`none`), otherwise the parameter's text is parsed
(`none` when non-numeric). -/
def resolveSettingNumber (machineParamMap : List ((Nat × Nat) × Option ℚ)) :
    Option SettingVal → Option ℚ
  | none => none
  | some (.lit v) => v
  | some (.token m p) =>
    match (machineParamMap.find? (fun e => e.1 == (m, p))).map (·.2) with
    | none => none
    | some v => v

/-- The shared `intensificationCoeff` (default 1, overridden when the
setting resolves to a finite number; a missing/unparsable settings blob also
leaves the default). -/
def intensificationCoeff (machineParamMap : List ((Nat × Nat) × Option ℚ))
    (settings : Option StepSettings) : ℚ :=
  match settings with
  | none => 1
  | some s =>
    match resolveSettingNumber machineParamMap s.intensification_coeff with
    | some v => v
    | none => 1

/-- The value argument of `setDerived`: a number-or-null or a string. -/
inductive DVal
  | num (v : Option ℚ)
  | str (s : String)
deriving DecidableEq, Repr

def dvalTruthy : DVal → Bool
  | .num (some v) => decide (v ≠ 0)
  | .num none => false
  | .str s => decide (s ≠ "")

def dvalString : DVal → String
  | .num (some v) => toString v
  | .num none => ""
  | .str s => s

/-- `setDerived` of `recomputeDerivedAndSummary`: writes only fields that
exist and are flagged `is_derived`; a number field stores `value_real`
(null unless the value is a finite number), any other field stores the
stringified value (empty string when falsy). -/
def setDerived (fields : List QualField) (store : List (Nat × QualValue))
    (code : String) (v : DVal) : List (Nat × QualValue) :=
  match fieldByCode fields code with
  | none => store
  | some f =>
    if f.is_derived then
      match f.field_type with
      | .number =>
        let vr : Option ℚ := match v with | .num o => o | .str _ => none
        rset store f.id ⟨vr, none, none⟩
      | _ =>
        rset store f.id ⟨none, some (if dvalTruthy v then dvalString v else ""), none⟩
    else store

/-- `parseCavityIndex`: matches `^cavity(\d+)_weight_g$` over the string's
character list — prefix `cavity`, a non-empty run of digits, suffix
`_weight_g` — and returns the digits' value.  (Digit strings long enough to
overflow an IEEE double are out of the model's scope.) -/
def parseCavityIndex (code : String) : Option Nat :=
  let cs := code.data
  let mid := (cs.drop 6).take ((cs.drop 6).length - 9)
  if cs.take 6 = "cavity".data ∧ (cs.drop 6).drop mid.length = "_weight_g".data ∧
      mid ≠ [] ∧ mid.all Char.isDigit then
    some (mid.foldl (fun n c => n * 10 + (c.toNat - 48)) 0)
  else none

/-- The step-2 cavity weight fields, filtered and stably sorted by cavity
index (`(parseCavityIndex(code) || 0)` ascending; JS `sort` is stable). -/
def cavityWeightFields (fields : List QualField) : List QualField :=
  (fields.filter (fun f => (parseCavityIndex f.code).isSome)).insertionSort
    (fun a b => (parseCavityIndex a.code).getD 0 ≤ (parseCavityIndex b.code).getD 0)

/-- The filled cavity weights of one run (present finite `value_real`s). -/
def cavityWeights (fields : List QualField) (store : List (Nat × QualValue)) :
    List ℚ :=
  (cavityWeightFields fields).filterMap (fun f =>
    match rget store f.id with
    | some v => v.value_real
    | none => none)

/-- `Math.max(...)` over a non-empty list (the `[]` case is never reached by
the engine, which guards on non-emptiness). -/
def maxQ : List ℚ → ℚ
  | [] => 0
  | x :: xs => xs.foldl max x

/-- `Math.min`-style fold, for the step-1 lowest-viscosity search. -/
def minQl : List ℚ → ℚ
  | [] => 0
  | x :: xs => xs.foldl min x

/-- JS truthiness of a number-or-null (`null`, `0` and `NaN` are falsy). -/
def optTruthy (o : Option ℚ) : Bool :=
  match o with
  | some t => decide (t ≠ 0)
  | none => false

/-- The step-2 `target_weight_g` setting (kept only when it resolves to a
finite number). -/
def stepTargetWeight (machineParamMap : List ((Nat × Nat) × Option ℚ))
    (settings : Option StepSettings) : Option ℚ :=
  match settings with
  | none => none
  | some s => resolveSettingNumber machineParamMap s.target_weight_g

/-- The step-1 (rheology) per-run recompute:
`shear_rate_proxy := 1 / fill_time_s` written only when `fill_time_s` is
present and non-zero; `rel_viscosity := peak × fill × coeff` written only
when additionally `peak_inj_pressure_bar` is present. -/
def stepOneRecompute (fields : List QualField) (coeff : ℚ)
    (store : List (Nat × QualValue)) : List (Nat × QualValue) :=
  let fill := getNumber fields store "fill_time_s"
  let peak := getNumber fields store "peak_inj_pressure_bar"
  let shearRate : Option ℚ :=
    match fill with
    | some f => if f ≠ 0 then some (1 / f) else none
    | none => none
  let store1 :=
    match shearRate with
    | some sr => setDerived fields store "shear_rate_proxy" (.num (some sr))
    | none => store
  match peak, shearRate with
  | some p, some _ =>
    setDerived fields store1 "rel_viscosity" (.num (some (p * fill.getD 0 * coeff)))
  | _, _ => store1

/-- The step-2 (cavity balance) per-run recompute. -/
def stepTwoRecompute (fields : List QualField)
    (machineParamMap : List ((Nat × Nat) × Option ℚ))
    (settings : Option StepSettings) (store : List (Nat × QualValue)) :
    List (Nat × QualValue) :=
  let weights := cavityWeights fields store
  let targetWeight := stepTargetWeight machineParamMap settings
  if 1 ≤ weights.length then
    let avg := weights.sum / (weights.length : ℚ)
    let ref :=
      if optTruthy targetWeight && decide (weights.length < 3) then targetWeight.getD 0
      else avg
    let variation : Option ℚ :=
      if ref ≠ 0 then some (maxQ (weights.map (fun w => |(ref - w) / ref| * 100)))
      else none
    setDerived fields store "cavity_weight_variation_pct" (.num variation)
  else store

/-- The step-3 local intensification coefficient (step-3 settings override
the shared one; a parse failure restores the shared value). -/
def stepThreeCoeffLocal (machineParamMap : List ((Nat × Nat) × Option ℚ))
    (settings : Option StepSettings) (coeff : ℚ) : ℚ :=
  match settings with
  | none => coeff
  | some s =>
    match resolveSettingNumber machineParamMap s.intensification_coeff with
    | some v => v
    | none => coeff

/-- The step-3 machine-max-pressure override from settings. -/
def machineMaxOverrideOf (machineParamMap : List ((Nat × Nat) × Option ℚ))
    (settings : Option StepSettings) : Option ℚ :=
  match settings with
  | none => none
  | some s => resolveSettingNumber machineParamMap s.machine_max_pressure_bar

def stepThreeLabels : List String :=
  ["air_shot", "sprue", "runner", "part_10", "part_50", "part_95"]

/-- The step-3 (pressure drop) per-run recompute. -/
def stepThreeRecompute (fields : List QualField)
    (machineParamMap : List ((Nat × Nat) × Option ℚ))
    (settings : Option StepSettings) (coeff : ℚ)
    (store : List (Nat × QualValue)) : List (Nat × QualValue) :=
  let coeffLocal := stepThreeCoeffLocal machineParamMap settings coeff
  let machineMaxOverride := machineMaxOverrideOf machineParamMap settings
  let pressureRaw : List (Option ℚ) :=
    [getNumber fields store "pressure_air_shot_bar",
     getNumber fields store "pressure_sprue_bar",
     getNumber fields store "pressure_runner_bar",
     getNumber fields store "pressure_part_10_bar",
     getNumber fields store "pressure_part_50_bar",
     getNumber fields store "pressure_part_95_bar"]
  let pressures := (pressureRaw.filterMap id).map (fun v => v * coeffLocal)
  let maxPressure : Option ℚ :=
    if pressures.length ≠ 0 then some (maxQ pressures) else none
  let machineMax : Option ℚ :=
    match machineMaxOverride with
    | some v => some v
    | none => getNumber fields store "machine_max_pressure_bar"
  let store1 :=
    match maxPressure, machineMax with
    | some mp, some mm =>
      if mm ≠ 0 then setDerived fields store "max_pressure_pct" (.num (some (mp / mm * 100)))
      else store
    | _, _ => store
  let profile := String.intercalate ", " ((stepThreeLabels.zip pressureRaw).map (fun lp =>
    match lp.2 with
    | some v => lp.1 ++ ": " ++ toString (v * coeffLocal)
    | none => lp.1 ++ ": -"))
  setDerived fields store1 "pressure_drop_profile" (.str profile)

/-- One run's pass of the derived-value engine: the three sequential
step-number guards of `recomputeDerivedAndSummary` (steps 4–6 write no
per-run derived fields). -/
def recomputeRunValues (stepNumber : Nat) (fields : List QualField)
    (machineParamMap : List ((Nat × Nat) × Option ℚ))
    (settings : Option StepSettings) (store : List (Nat × QualValue)) :
    List (Nat × QualValue) :=
  let coeff := intensificationCoeff machineParamMap settings
  let s1 := if stepNumber = 1 then stepOneRecompute fields coeff store else store
  let s2 := if stepNumber = 2 then stepTwoRecompute fields machineParamMap settings s1 else s1
  if stepNumber = 3 then stepThreeRecompute fields machineParamMap settings coeff s2 else s2

/-! ## Qualification step-1 summary -/

/-- The step-1 best-run fold of `buildStepSummary`: keep the first run whose
`rel_viscosity` is strictly below the current best. -/
def bestInjSpeed (fields : List QualField)
    (runStores : List (List (Nat × QualValue))) : Option ℚ :=
  (runStores.foldl (fun best store =>
    match getNumber fields store "inj_speed",
        getNumber fields store "rel_viscosity" with
    | some inj, some visc =>
      match best with
      | none => some (inj, visc)
      | some bv => if visc < bv.2 then some (inj, visc) else some bv
    | _, _ => best) none).map (·.1)

/-- The runs qualifying for the step-1 recommendation: both `inj_speed` and
`rel_viscosity` present. -/
def qualifiedPairs (fields : List QualField)
    (runStores : List (List (Nat × QualValue))) : List (ℚ × ℚ) :=
  runStores.filterMap (fun store =>
    match getNumber fields store "inj_speed",
        getNumber fields store "rel_viscosity" with
    | some inj, some visc => some (inj, visc)
    | _, _ => none)

/-- The summary's final `recommended_inj_speed`: the best-run value, unless
the step-1 settings contain a `recommended_inj_speed` that resolves to a
finite number, which overrides it (`recomputeDerivedAndSummary` lines
570–581). -/
def summaryRecommendedInjSpeed (fields : List QualField)
    (machineParamMap : List ((Nat × Nat) × Option ℚ))
    (settings : Option StepSettings)
    (runStores : List (List (Nat × QualValue))) : Option ℚ :=
  let base := bestInjSpeed fields runStores
  match settings with
  | none => base
  | some s =>
    match resolveSettingNumber machineParamMap s.recommended_inj_speed with
    | some v => some v
    | none => base

/-! ## Frame property of the recompute pass (claim C10) -/

theorem fieldByCode_mem {fields : List QualField} {code : String} {f : QualField}
    (h : fieldByCode fields code = some f) : f ∈ fields ∧ f.code = code := by
  rw [fieldByCode] at h
  obtain ⟨ys, hys⟩ := List.getLast?_eq_some_iff.mp h
  have hmem : f ∈ fields.filter (fun f => f.code == code) := by
    rw [hys]
    simp
  exact ⟨List.mem_of_mem_filter hmem, by simpa using (List.mem_filter.mp hmem).2⟩

theorem setDerived_frame (fields : List QualField) (fid : Nat)
    (hraw : ∀ f ∈ fields, f.id = fid → f.is_derived = false) :
    ∀ (store : List (Nat × QualValue)) (code : String) (v : DVal),
      rget (setDerived fields store code v) fid = rget store fid := by
  intro store code v
  rw [setDerived.eq_def]
  cases hfc : fieldByCode fields code with
  | none => rfl
  | some f =>
    dsimp only
    obtain ⟨hfmem, _⟩ := fieldByCode_mem hfc
    by_cases hder : f.is_derived = true
    · have hne : fid ≠ f.id := by
        intro hEq
        have hfalse := hraw f hfmem hEq.symm
        rw [hfalse] at hder
        exact absurd hder (by decide)
      rw [if_pos hder]
      cases f.field_type <;> exact rget_rset_ne store _ hne
    · rw [if_neg hder]

theorem stepOne_frame (fields : List QualField) (fid : Nat)
    (hraw : ∀ f ∈ fields, f.id = fid → f.is_derived = false) :
    ∀ (coeff : ℚ) (store : List (Nat × QualValue)),
      rget (stepOneRecompute fields coeff store) fid = rget store fid := by
  intro coeff store
  simp only [stepOneRecompute]
  repeat' split
  all_goals simp only [setDerived_frame fields fid hraw]

theorem stepTwo_frame (fields : List QualField) (fid : Nat)
    (hraw : ∀ f ∈ fields, f.id = fid → f.is_derived = false) :
    ∀ (machineParamMap : List ((Nat × Nat) × Option ℚ))
      (settings : Option StepSettings) (store : List (Nat × QualValue)),
      rget (stepTwoRecompute fields machineParamMap settings store) fid =
        rget store fid := by
  intro machineParamMap settings store
  simp only [stepTwoRecompute]
  repeat' split
  all_goals simp only [setDerived_frame fields fid hraw]

theorem stepThree_frame (fields : List QualField) (fid : Nat)
    (hraw : ∀ f ∈ fields, f.id = fid → f.is_derived = false) :
    ∀ (machineParamMap : List ((Nat × Nat) × Option ℚ))
      (settings : Option StepSettings) (coeff : ℚ)
      (store : List (Nat × QualValue)),
      rget (stepThreeRecompute fields machineParamMap settings coeff store) fid =
        rget store fid := by
  intro machineParamMap settings coeff store
  simp only [stepThreeRecompute]
  repeat' split
  all_goals simp only [setDerived_frame fields fid hraw]

/-- C10: a recompute pass writes run values only through `setDerived`, which
requires the target field's `is_derived` flag; hence for every field id all
of whose field rows are not derived, the stored
`(value_real, value_text, value_tags_json)` triple is unchanged by the pass,
for every step number. -/
theorem recompute_frame (stepNumber : Nat) (fields : List QualField)
    (machineParamMap : List ((Nat × Nat) × Option ℚ))
    (settings : Option StepSettings) (store : List (Nat × QualValue)) (fid : Nat)
    (hraw : ∀ f ∈ fields, f.id = fid → f.is_derived = false) :
    rget (recomputeRunValues stepNumber fields machineParamMap settings store) fid =
      rget store fid := by
  simp only [recomputeRunValues]
  repeat' split
  all_goals simp only [stepOne_frame fields fid hraw, stepTwo_frame fields fid hraw,
    stepThree_frame fields fid hraw]

/-- Concrete step-1 fields for the qualification claims: raw
`fill_time_s` / `peak_inj_pressure_bar`, derived `shear_rate_proxy` /
`rel_viscosity`. -/
def qualStepOneFields : List QualField :=
  [⟨1, "fill_time_s", .number, false⟩,
   ⟨2, "peak_inj_pressure_bar", .number, false⟩,
   ⟨3, "shear_rate_proxy", .number, true⟩,
   ⟨4, "rel_viscosity", .number, true⟩]

/-- Witness for C10: the raw `fill_time_s` row (field id 1) is untouched by
a step-1 recompute pass that does write the derived fields. -/
theorem recompute_frame_witness :
    rget (recomputeRunValues 1 qualStepOneFields [] none
      [(1, ⟨some 2, none, none⟩), (2, ⟨some 100, none, none⟩)]) 1 =
      rget [(1, (⟨some 2, none, none⟩ : QualValue)), (2, ⟨some 100, none, none⟩)] 1 :=
  recompute_frame 1 qualStepOneFields [] none
    [(1, ⟨some 2, none, none⟩), (2, ⟨some 100, none, none⟩)] 1 (by decide)

/-! ## Step-1 derived values (claim C6) -/

/-- A step-1 run store holding `fill_time_s = 0`, `peak = 100`, and a stale
`shear_rate_proxy = 7` left over from an earlier recompute. -/
def c6StaleStore : List (Nat × QualValue) :=
  [(1, ⟨some 0, none, none⟩), (2, ⟨some 100, none, none⟩),
   (3, ⟨some 7, none, none⟩)]

/-- C6 counterexample: with `fill_time_s = 0` the claim demands
`shear_rate_proxy` be absent and `rel_viscosity = 100 × 0 × 1 = 0`; the
recompute pass instead skips both writes, leaving the stale
`shear_rate_proxy = 7` in place and `rel_viscosity` absent. -/
theorem stepOne_stale_counterexample :
    getNumber qualStepOneFields c6StaleStore "fill_time_s" = some 0
    ∧ rget (recomputeRunValues 1 qualStepOneFields [] none c6StaleStore) 3 =
        some ⟨some 7, none, none⟩
    ∧ rget (recomputeRunValues 1 qualStepOneFields [] none c6StaleStore) 3 ≠ none
    ∧ rget (recomputeRunValues 1 qualStepOneFields [] none c6StaleStore) 4 = none := by
  decide

theorem setDerived_frame_ne (fields : List QualField)
    (st : List (Nat × QualValue)) (code : String) (v : DVal) (fid : Nat)
    (h : ∀ f, fieldByCode fields code = some f → fid ≠ f.id) :
    rget (setDerived fields st code v) fid = rget st fid := by
  rw [setDerived.eq_def]
  cases hfc : fieldByCode fields code with
  | none => rfl
  | some f =>
    dsimp only
    by_cases hder : f.is_derived = true
    · rw [if_pos hder]
      cases f.field_type <;> exact rget_rset_ne st _ (h f hfc)
    · rw [if_neg hder]

theorem setDerived_number_eq (fields : List QualField)
    (store : List (Nat × QualValue)) (code : String) (o : Option ℚ)
    (f : QualField) (hf : fieldByCode fields code = some f)
    (hd : f.is_derived = true) (ht : f.field_type = .number) :
    setDerived fields store code (.num o) = rset store f.id ⟨o, none, none⟩ := by
  rw [setDerived.eq_def, hf]
  dsimp only
  rw [if_pos hd, ht]

theorem recomputeRunValues_one (fields : List QualField)
    (machineParamMap : List ((Nat × Nat) × Option ℚ))
    (settings : Option StepSettings) (store : List (Nat × QualValue)) :
    recomputeRunValues 1 fields machineParamMap settings store =
      stepOneRecompute fields (intensificationCoeff machineParamMap settings) store := by
  simp [recomputeRunValues]

/-- C6 amended: when `fill_time_s` is present and non-zero,
`shear_rate_proxy := 1 / fill_time_s` is written, and `rel_viscosity :=
peak × fill × intensification_coeff` is written when additionally
`peak_inj_pressure_bar` is present; when `fill_time_s` is missing or zero
the pass writes neither field, leaving any previously stored values in
place (it does not clear them). -/
theorem stepOne_amended (fields : List QualField)
    (machineParamMap : List ((Nat × Nat) × Option ℚ))
    (settings : Option StepSettings) (store : List (Nat × QualValue)) :
    ((getNumber fields store "fill_time_s" = none ∨
        getNumber fields store "fill_time_s" = some 0) →
      recomputeRunValues 1 fields machineParamMap settings store = store)
    ∧ (∀ t, getNumber fields store "fill_time_s" = some t → t ≠ 0 →
        ∀ fs, fieldByCode fields "shear_rate_proxy" = some fs →
          fs.is_derived = true → fs.field_type = .number →
        ∀ fv, fieldByCode fields "rel_viscosity" = some fv → fv.id ≠ fs.id →
          rget (recomputeRunValues 1 fields machineParamMap settings store) fs.id =
            some ⟨some (1 / t), none, none⟩
          ∧ (getNumber fields store "peak_inj_pressure_bar" = none →
              rget (recomputeRunValues 1 fields machineParamMap settings store) fv.id =
                rget store fv.id)
          ∧ (∀ p, getNumber fields store "peak_inj_pressure_bar" = some p →
              fv.is_derived = true → fv.field_type = .number →
              rget (recomputeRunValues 1 fields machineParamMap settings store) fv.id =
                some ⟨some (p * t * intensificationCoeff machineParamMap settings),
                  none, none⟩)) := by
  constructor
  · intro h
    rw [recomputeRunValues_one]
    rcases h with h | h <;>
      · simp only [stepOneRecompute, h]
        cases hpeak : getNumber fields store "peak_inj_pressure_bar" <;> simp
  · intro t ht htne fs hfs hfsd hfst fv hfv hne
    rw [recomputeRunValues_one]
    have hite : (if t ≠ 0 then some (1 / t) else (none : Option ℚ)) = some (1 / t) :=
      if_pos htne
    have hs1 : setDerived fields store "shear_rate_proxy" (.num (some (1 / t))) =
        rset store fs.id ⟨some (1 / t), none, none⟩ :=
      setDerived_number_eq fields store _ _ fs hfs hfsd hfst
    refine ⟨?_, ?_, ?_⟩
    · simp only [stepOneRecompute, ht, hite]
      cases hpeak : getNumber fields store "peak_inj_pressure_bar" with
      | none =>
        dsimp only
        simp only [hs1]
        exact rget_rset_self store fs.id _
      | some p =>
        dsimp only
        rw [setDerived_frame_ne fields _ "rel_viscosity" _ fs.id
          (by
            intro f hf
            rw [hfv] at hf
            cases hf
            exact Ne.symm hne)]
        simp only [hs1]
        exact rget_rset_self store fs.id _
    · intro hpeak
      simp only [stepOneRecompute, ht, hite, hpeak, hs1]
      exact rget_rset_ne _ _ hne
    · intro p hpeak hfvd hfvt
      simp only [stepOneRecompute, ht, hite, hpeak]
      rw [setDerived_number_eq fields _ _ _ fv hfv hfvd hfvt]
      simp only [Option.getD_some]
      exact rget_rset_self _ fv.id _

/-- Spec Scenario 3's run store: `fill_time_s = 2`, `peak = 100`. -/
def c6ScenarioStore : List (Nat × QualValue) :=
  [(1, ⟨some 2, none, none⟩), (2, ⟨some 100, none, none⟩)]

/-- Witness for the amended C6 at Scenario 3: `shear_rate_proxy = 0.5` and
`rel_viscosity = 200` (coefficient defaults to 1 with no settings). -/
theorem stepOne_amended_witness :
    rget (recomputeRunValues 1 qualStepOneFields [] none c6ScenarioStore) 3 =
        some ⟨some (1 / 2), none, none⟩
    ∧ rget (recomputeRunValues 1 qualStepOneFields [] none c6ScenarioStore) 4 =
        some ⟨some 200, none, none⟩ := by
  have h := (stepOne_amended qualStepOneFields [] none c6ScenarioStore).2 2
    (by decide) (by norm_num)
    ⟨3, "shear_rate_proxy", .number, true⟩ (by decide) rfl rfl
    ⟨4, "rel_viscosity", .number, true⟩ (by decide) (by decide)
  refine ⟨h.1, ?_⟩
  have h2 := h.2.2 100 (by decide) rfl rfl
  exact h2.trans (by norm_num [intensificationCoeff])

/-! ## Step-2 cavity balance (claim C7) -/

theorem foldl_max_max (a b : ℚ) :
    ∀ (t : List ℚ), t.foldl max (max a b) = max a (t.foldl max b)
  | [] => rfl
  | c :: t => by
    rw [List.foldl_cons, List.foldl_cons, max_assoc]
    exact foldl_max_max a (max b c) t

theorem maxQ_cons (x y : ℚ) (t : List ℚ) :
    maxQ (x :: y :: t) = max x (maxQ (y :: t)) := by
  show (y :: t).foldl max x = max x (t.foldl max y)
  rw [List.foldl_cons]
  exact foldl_max_max x y t

theorem max_scale (x y r c : ℚ) (hr : 0 < r) (hc : 0 < c) :
    max (x / r * c) (y / r * c) = max x y / r * c := by
  rcases le_total x y with h | h
  · rw [max_eq_right h, max_eq_right]
    gcongr
  · rw [max_eq_left h, max_eq_left]
    gcongr

theorem maxQ_map_scale (r c : ℚ) (hr : 0 < r) (hc : 0 < c) :
    ∀ (l : List ℚ), l ≠ [] →
      maxQ (l.map (fun y => y / r * c)) = maxQ l / r * c
  | [], h => absurd rfl h
  | [x], _ => by simp [maxQ]
  | x :: y :: t, _ => by
    rw [List.map_cons, List.map_cons, maxQ_cons, maxQ_cons x y t,
      show (y / r * c :: t.map (fun y => y / r * c)) =
        (y :: t).map (fun y => y / r * c) from rfl,
      maxQ_map_scale r c hr hc (y :: t) (by simp)]
    exact max_scale x (maxQ (y :: t)) r c hr hc

theorem recomputeRunValues_two (fields : List QualField)
    (machineParamMap : List ((Nat × Nat) × Option ℚ))
    (settings : Option StepSettings) (store : List (Nat × QualValue)) :
    recomputeRunValues 2 fields machineParamMap settings store =
      stepTwoRecompute fields machineParamMap settings store := by
  simp [recomputeRunValues]

/-- C7 amended: with at least one filled cavity weight, the engine writes
`cavity_weight_variation_pct` using the reference weight `ref` that is the
configured `target_weight_g` only when that setting resolves to a *non-zero*
number (JS truthiness) *and* fewer than 3 cavities are filled, and the mean
of the filled weights otherwise; for a positive `ref` the stored value is
the spec's formula `max |ref − w| / ref × 100`, and for `ref = 0` a null is
stored. -/
theorem stepTwo_amended (fields : List QualField)
    (machineParamMap : List ((Nat × Nat) × Option ℚ))
    (settings : Option StepSettings) (store : List (Nat × QualValue))
    (fv : QualField)
    (hfv : fieldByCode fields "cavity_weight_variation_pct" = some fv)
    (hfd : fv.is_derived = true) (hft : fv.field_type = .number)
    (hw : 1 ≤ (cavityWeights fields store).length) :
    ∀ r, r = (if optTruthy (stepTargetWeight machineParamMap settings) &&
          decide ((cavityWeights fields store).length < 3) then
            (stepTargetWeight machineParamMap settings).getD 0
          else (cavityWeights fields store).sum /
            ((cavityWeights fields store).length : ℚ)) →
      (0 < r →
        rget (recomputeRunValues 2 fields machineParamMap settings store) fv.id =
          some ⟨some (maxQ ((cavityWeights fields store).map (fun w => |r - w|)) /
            r * 100), none, none⟩)
      ∧ (r = 0 →
        rget (recomputeRunValues 2 fields machineParamMap settings store) fv.id =
          some ⟨none, none, none⟩) := by
  intro r hr
  have hwne : cavityWeights fields store ≠ [] := by
    intro hEq
    rw [hEq] at hw
    exact absurd hw (by decide)
  constructor
  · intro hrpos
    rw [recomputeRunValues_two]
    simp only [stepTwoRecompute, if_pos hw, ← hr, if_pos (ne_of_gt hrpos)]
    rw [setDerived_number_eq fields store _ _ fv hfv hfd hft, rget_rset_self]
    have hform : (cavityWeights fields store).map (fun w => |(r - w) / r| * 100) =
        (cavityWeights fields store).map
          ((fun y => y / r * 100) ∘ (fun w => |r - w|)) := by
      apply List.map_congr_left
      intro w _
      simp only [Function.comp]
      rw [abs_div, abs_of_pos hrpos, div_mul_eq_mul_div]
    rw [hform, ← List.map_map, maxQ_map_scale r 100 hrpos (by norm_num) _
      (by simpa using hwne)]
  · intro hr0
    rw [recomputeRunValues_two]
    simp only [stepTwoRecompute, if_pos hw, ← hr]
    rw [setDerived_number_eq fields store _ _ fv hfv hfd hft, rget_rset_self,
      if_neg (show ¬(r ≠ 0) from fun h => h hr0)]

/-- Qualification step-2 field list: three cavity-weight inputs and the
derived variation field. -/
def c7Fields : List QualField :=
  [⟨1, "cavity1_weight_g", .number, false⟩,
   ⟨2, "cavity2_weight_g", .number, false⟩,
   ⟨3, "cavity3_weight_g", .number, false⟩,
   ⟨4, "cavity_weight_variation_pct", .number, true⟩]

/-- A run with two cavity weights filled: 10 and 20. -/
def c7TwoStore : List (Nat × QualValue) :=
  [(1, ⟨some 10, none, none⟩), (2, ⟨some 20, none, none⟩)]

/-- Step-2 settings whose `target_weight_g` is the numeric literal 0. -/
def c7ZeroTarget : StepSettings := { target_weight_g := some (.lit (some 0)) }

/-- Counterexample to C7 as stated: with `target_weight_g` configured as 0
and two cavity weights (10, 20) filled, the claim's reference weight is the
configured target (fewer than 3 cavities are filled), under which its
formula `max |ref − w| / ref × 100` cannot yield the stored value — but the
code treats the falsy target 0 as absent (`targetWeight && …`), takes the
mean 15 and stores 100/3. -/
theorem stepTwo_target_zero_counterexample :
    stepTargetWeight [] (some c7ZeroTarget) = some 0
    ∧ (cavityWeights c7Fields c7TwoStore).length < 3
    ∧ rget (recomputeRunValues 2 c7Fields [] (some c7ZeroTarget) c7TwoStore) 4 =
        some ⟨some (100 / 3), none, none⟩
    ∧ maxQ ((cavityWeights c7Fields c7TwoStore).map
        (fun w => |((0 : ℚ) - w) / 0| * 100)) = 0
    ∧ (100 / 3 : ℚ) ≠ 0 := by
  have hcw : cavityWeights c7Fields c7TwoStore = [10, 20] := by decide
  refine ⟨rfl, by decide, ?_, ?_, by norm_num⟩
  · have hw : 1 ≤ (cavityWeights c7Fields c7TwoStore).length := by
      rw [hcw]; decide
    have hopt : optTruthy (stepTargetWeight [] (some c7ZeroTarget)) = false := rfl
    rw [recomputeRunValues_two]
    simp only [stepTwoRecompute, if_pos hw, hopt, Bool.false_and,
      Bool.false_eq_true, if_false]
    rw [setDerived_number_eq c7Fields c7TwoStore "cavity_weight_variation_pct" _
        ⟨4, "cavity_weight_variation_pct", .number, true⟩ rfl rfl rfl,
      rget_rset_self, hcw]
    have havg : (([10, 20] : List ℚ).sum / (([10, 20] : List ℚ).length : ℚ)) = 15 := by
      norm_num
    rw [havg, if_pos (by norm_num : (15 : ℚ) ≠ 0)]
    have e1 : |((15 : ℚ) - 10) / 15| * 100 = 100 / 3 := by
      rw [show ((15 : ℚ) - 10) / 15 = 1 / 3 by norm_num,
        abs_of_pos (by norm_num : (0 : ℚ) < 1 / 3)]
      norm_num
    have e2 : |((15 : ℚ) - 20) / 15| * 100 = 100 / 3 := by
      rw [show ((15 : ℚ) - 20) / 15 = -(1 / 3) by norm_num, abs_neg,
        abs_of_pos (by norm_num : (0 : ℚ) < 1 / 3)]
      norm_num
    simp only [List.map_cons, List.map_nil, e1, e2, maxQ, List.foldl, max_self]
  · rw [hcw]
    simp [maxQ, List.foldl, div_zero]

/-- Spec Scenario 4's run: cavity weights 10, 10.5 and 9.5 filled. -/
def c7ThreeStore : List (Nat × QualValue) :=
  [(1, ⟨some 10, none, none⟩), (2, ⟨some (21 / 2), none, none⟩),
   (3, ⟨some (19 / 2), none, none⟩)]

/-- Witness for the amended C7: on Scenario 4 (weights 10, 10.5, 9.5, no
target override) the hypotheses hold, the reference is the mean 10, and the
engine stores `variation_pct = 5`. -/
theorem stepTwo_amended_witness :
    1 ≤ (cavityWeights c7Fields c7ThreeStore).length
    ∧ rget (recomputeRunValues 2 c7Fields [] none c7ThreeStore) 4 =
        some ⟨some 5, none, none⟩ := by
  have hcw : cavityWeights c7Fields c7ThreeStore = [10, 21 / 2, 19 / 2] := rfl
  have hw : 1 ≤ (cavityWeights c7Fields c7ThreeStore).length := by
    rw [hcw]; decide
  refine ⟨hw, ?_⟩
  have hr : (10 : ℚ) = (if optTruthy (stepTargetWeight [] none) &&
      decide ((cavityWeights c7Fields c7ThreeStore).length < 3) then
        (stepTargetWeight [] none).getD 0
      else (cavityWeights c7Fields c7ThreeStore).sum /
        ((cavityWeights c7Fields c7ThreeStore).length : ℚ)) := by
    rw [hcw]
    simp only [show optTruthy (stepTargetWeight [] none) = false from rfl,
      Bool.false_and, Bool.false_eq_true, if_false]
    norm_num
  have h := (stepTwo_amended c7Fields [] none c7ThreeStore
      ⟨4, "cavity_weight_variation_pct", .number, true⟩ rfl rfl rfl hw 10 hr).1
    (by norm_num)
  rw [h, hcw]
  have e1 : |(10 : ℚ) - 10| = 0 := by simp
  have e2 : |(10 : ℚ) - 21 / 2| = 1 / 2 := by
    rw [show (10 : ℚ) - 21 / 2 = -(1 / 2) by norm_num, abs_neg,
      abs_of_pos (by norm_num : (0 : ℚ) < 1 / 2)]
  have e3 : |(10 : ℚ) - 19 / 2| = 1 / 2 := by
    rw [show (10 : ℚ) - 19 / 2 = 1 / 2 by norm_num,
      abs_of_pos (by norm_num : (0 : ℚ) < 1 / 2)]
  simp only [List.map_cons, List.map_nil, e1, e2, e3, maxQ, List.foldl]
  rw [max_eq_right (by norm_num : (0 : ℚ) ≤ 1 / 2), max_self,
    show (1 / 2 : ℚ) / 10 * 100 = 5 by norm_num]

/-! ## The step-1 recommended injection speed (claim C8) -/

/-- One step of the step-1 best-run fold, on a qualified (inj, visc) pair:
keep the incumbent unless the new viscosity is strictly lower. -/
def bestPairStep (best : Option (ℚ × ℚ)) (p : ℚ × ℚ) : Option (ℚ × ℚ) :=
  match best with
  | none => some p
  | some bv => if p.2 < bv.2 then some p else some bv

theorem foldl_min_le_init : ∀ (l : List ℚ) (a : ℚ), l.foldl min a ≤ a
  | [], a => le_refl a
  | x :: l, a => le_trans (foldl_min_le_init l (min a x)) (min_le_left a x)

/-- The run-store fold of `bestInjSpeed` only looks at the qualified
(inj, visc) pairs. -/
theorem bestFold_eq (fields : List QualField) :
    ∀ (l : List (List (Nat × QualValue))) (init : Option (ℚ × ℚ)),
      l.foldl (fun best store =>
        match getNumber fields store "inj_speed",
            getNumber fields store "rel_viscosity" with
        | some inj, some visc =>
          match best with
          | none => some (inj, visc)
          | some bv => if visc < bv.2 then some (inj, visc) else some bv
        | _, _ => best) init
      = (qualifiedPairs fields l).foldl bestPairStep init := by
  intro l
  induction l with
  | nil => intro init; rfl
  | cons s l ih =>
    intro init
    rw [List.foldl_cons, qualifiedPairs, List.filterMap_cons]
    rcases h1 : getNumber fields s "inj_speed" with _ | inj <;>
      rcases h2 : getNumber fields s "rel_viscosity" with _ | visc <;>
        simp only [h1, h2]
    · exact ih init
    · exact ih init
    · exact ih init
    · rw [List.foldl_cons]
      exact ih (bestPairStep init (inj, visc))

theorem bestInjSpeed_eq_pairs (fields : List QualField)
    (runStores : List (List (Nat × QualValue))) :
    bestInjSpeed fields runStores =
      ((qualifiedPairs fields runStores).foldl bestPairStep none).map Prod.fst := by
  rw [bestInjSpeed, bestFold_eq fields runStores none]

/-- The best-pair fold started at `some b` returns the first element of
`b :: Q` whose viscosity is the minimum viscosity of `b :: Q`. -/
theorem foldPairs_some : ∀ (Q : List (ℚ × ℚ)) (b : ℚ × ℚ),
    Q.foldl bestPairStep (some b) =
      (b :: Q).find? (fun p => p.2 == minQl ((b :: Q).map Prod.snd)) := by
  intro Q
  induction Q with
  | nil =>
    intro b
    rw [show minQl (([b] : List (ℚ × ℚ)).map Prod.snd) = b.2 from rfl,
      List.find?_cons_of_pos _ (by simp)]
    rfl
  | cons c Q ih =>
    intro b
    rw [List.foldl_cons,
      show bestPairStep (some b) c = some (if c.2 < b.2 then c else b) by
        rw [bestPairStep, apply_ite some],
      ih]
    have hb2 : (if c.2 < b.2 then c else b).2 = min b.2 c.2 := by
      rw [apply_ite Prod.snd]
      rcases lt_or_le c.2 b.2 with h | h
      · rw [if_pos h, min_eq_right (le_of_lt h)]
      · rw [if_neg (not_lt.mpr h), min_eq_left h]
    have hm : minQl ((b :: c :: Q).map Prod.snd) =
        minQl (((if c.2 < b.2 then c else b) :: Q).map Prod.snd) := by
      simp only [List.map_cons, minQl, List.foldl_cons, hb2]
    rw [hm]
    rcases lt_or_le c.2 b.2 with h | h
    · rw [if_pos h]
      have hmle : minQl ((c :: Q).map Prod.snd) ≤ c.2 := by
        simp only [List.map_cons, minQl]
        exact foldl_min_le_init _ _
      have hnb : ¬ ((fun p : ℚ × ℚ => p.2 == minQl ((c :: Q).map Prod.snd)) b) = true := by
        simp only [beq_iff_eq]
        intro hEq
        have := lt_of_le_of_lt hmle h
        linarith
      rw [List.find?_cons_of_neg
        (p := fun p : ℚ × ℚ => p.2 == minQl ((c :: Q).map Prod.snd)) (c :: Q) hnb]
    · rw [if_neg (not_lt.mpr h)]
      have hmle : minQl ((b :: Q).map Prod.snd) ≤ b.2 := by
        simp only [List.map_cons, minQl]
        exact foldl_min_le_init _ _
      by_cases hpb : b.2 = minQl ((b :: Q).map Prod.snd)
      · have ht : ((fun p : ℚ × ℚ => p.2 == minQl ((b :: Q).map Prod.snd)) b) = true := by
          simp only [beq_iff_eq]
          exact hpb
        rw [List.find?_cons_of_pos
            (p := fun p : ℚ × ℚ => p.2 == minQl ((b :: Q).map Prod.snd)) (c :: Q) ht,
          List.find?_cons_of_pos
            (p := fun p : ℚ × ℚ => p.2 == minQl ((b :: Q).map Prod.snd)) Q ht]
      · have hf : ¬ ((fun p : ℚ × ℚ => p.2 == minQl ((b :: Q).map Prod.snd)) b) = true := by
          simp only [beq_iff_eq]
          exact hpb
        rw [List.find?_cons_of_neg
            (p := fun p : ℚ × ℚ => p.2 == minQl ((b :: Q).map Prod.snd)) Q hf,
          List.find?_cons_of_neg
            (p := fun p : ℚ × ℚ => p.2 == minQl ((b :: Q).map Prod.snd)) (c :: Q) hf]
        have hfc : ¬ ((fun p : ℚ × ℚ => p.2 == minQl ((b :: Q).map Prod.snd)) c) = true := by
          simp only [beq_iff_eq]
          intro hEq
          exact hpb (le_antisymm (le_trans h (le_of_eq hEq)) hmle)
        rw [List.find?_cons_of_neg
          (p := fun p : ℚ × ℚ => p.2 == minQl ((b :: Q).map Prod.snd)) Q hfc]

/-- C8: the final step-1 `recommended_inj_speed` is overridden by a step-1
setting that resolves to a number; otherwise it is `bestInjSpeed`, which is
`null` when no run has both `inj_speed` and `rel_viscosity`, and otherwise
the `inj_speed` of the *first* qualified run attaining the minimum
`rel_viscosity` (ties keep the first encountered). -/
theorem summary_recommended_spec (fields : List QualField)
    (mpm : List ((Nat × Nat) × Option ℚ))
    (runStores : List (List (Nat × QualValue))) :
    (∀ s v, resolveSettingNumber mpm s.recommended_inj_speed = some v →
        summaryRecommendedInjSpeed fields mpm (some s) runStores = some v)
    ∧ (∀ s, resolveSettingNumber mpm s.recommended_inj_speed = none →
        summaryRecommendedInjSpeed fields mpm (some s) runStores =
          bestInjSpeed fields runStores)
    ∧ summaryRecommendedInjSpeed fields mpm none runStores =
        bestInjSpeed fields runStores
    ∧ (qualifiedPairs fields runStores = [] →
        bestInjSpeed fields runStores = none)
    ∧ (∀ b Q, qualifiedPairs fields runStores = b :: Q →
        bestInjSpeed fields runStores =
          ((b :: Q).find? (fun p =>
            p.2 == minQl ((b :: Q).map Prod.snd))).map Prod.fst) := by
  refine ⟨?_, ?_, rfl, ?_, ?_⟩
  · intro s v hres
    simp only [summaryRecommendedInjSpeed, hres]
  · intro s hres
    simp only [summaryRecommendedInjSpeed, hres]
  · intro hq
    rw [bestInjSpeed_eq_pairs, hq]
    rfl
  · intro b Q hq
    rw [bestInjSpeed_eq_pairs, hq, List.foldl_cons,
      show bestPairStep none b = some b from rfl, foldPairs_some Q b]

/-- Step-1 field list: `inj_speed` and `rel_viscosity`. -/
def c8Fields : List QualField :=
  [⟨1, "inj_speed", .number, false⟩, ⟨2, "rel_viscosity", .number, false⟩]

/-- Two runs: (inj 10, visc 5) and (inj 20, visc 7); the best run is the
first one. -/
def c8Stores : List (List (Nat × QualValue)) :=
  [[(1, ⟨some 10, none, none⟩), (2, ⟨some 5, none, none⟩)],
   [(1, ⟨some 20, none, none⟩), (2, ⟨some 7, none, none⟩)]]

/-- Step-1 settings with a numeric `recommended_inj_speed` of 99. -/
def c8Settings : StepSettings := { recommended_inj_speed := some (.lit (some 99)) }

/-- Counterexample to C8 as stated: the claim's lowest-viscosity rule picks
inj_speed 10, but a step-1 `recommended_inj_speed` setting that resolves to
a number (99) overrides the summary, so the stored recommendation is not
the lowest-viscosity run's `inj_speed`. -/
theorem summary_recommended_override_counterexample :
    ((qualifiedPairs c8Fields c8Stores).find? (fun p =>
        p.2 == minQl ((qualifiedPairs c8Fields c8Stores).map Prod.snd))).map
      Prod.fst = some 10
    ∧ summaryRecommendedInjSpeed c8Fields [] (some c8Settings) c8Stores = some 99
    ∧ (99 : ℚ) ≠ 10 := by
  decide

/-- Three runs with a viscosity tie between the first two: (10, 5), (20, 5),
(30, 7). -/
def c8TieStores : List (List (Nat × QualValue)) :=
  [[(1, ⟨some 10, none, none⟩), (2, ⟨some 5, none, none⟩)],
   [(1, ⟨some 20, none, none⟩), (2, ⟨some 5, none, none⟩)],
   [(1, ⟨some 30, none, none⟩), (2, ⟨some 5, none, none⟩)]]

/-- Witness for C8: with no override and a viscosity tie, the summary
recommendation is the first qualified run's `inj_speed` (10). -/
theorem summary_recommended_spec_witness :
    qualifiedPairs c8Fields c8TieStores = (10, 5) :: [(20, 5), (30, 5)]
    ∧ summaryRecommendedInjSpeed c8Fields [] none c8TieStores = some 10 := by
  have h := summary_recommended_spec c8Fields [] c8TieStores
  refine ⟨by decide, ?_⟩
  rw [h.2.2.1, h.2.2.2.2 (10, 5) [(20, 5), (30, 5)] (by decide)]
  decide

/-! ## Machine-token resolution (claim C9) -/

/-- A settings slot holding a `%machineId:paramId%` token that matches no
entry of the linked machine's parameter map (so the token survives the
substitution and the value parses as `NaN`). -/
def unresolvedToken (machineParamMap : List ((Nat × Nat) × Option ℚ)) :
    Option SettingVal → Bool
  | some (.token m p) => (machineParamMap.find? (fun e => e.1 == (m, p))).isNone
  | _ => false

/-- Replace an unresolved-token slot by an absent slot. -/
def purgeSetting (machineParamMap : List ((Nat × Nat) × Option ℚ))
    (o : Option SettingVal) : Option SettingVal :=
  if unresolvedToken machineParamMap o then none else o

/-- Replace every unresolved-token slot of a settings record by an absent
slot. -/
def purgeSettings (machineParamMap : List ((Nat × Nat) × Option ℚ))
    (s : StepSettings) : StepSettings :=
  ⟨purgeSetting machineParamMap s.intensification_coeff,
   purgeSetting machineParamMap s.target_weight_g,
   purgeSetting machineParamMap s.machine_max_pressure_bar,
   purgeSetting machineParamMap s.recommended_inj_speed⟩

theorem resolve_purge (mpm : List ((Nat × Nat) × Option ℚ)) :
    ∀ o : Option SettingVal,
      resolveSettingNumber mpm (purgeSetting mpm o) = resolveSettingNumber mpm o
  | none => rfl
  | some (.lit v) => rfl
  | some (.token m p) => by
    rw [purgeSetting, unresolvedToken]
    cases hfind : mpm.find? (fun e => e.1 == (m, p)) with
    | none =>
      simp only [Option.isNone_none, if_true]
      simp [resolveSettingNumber, hfind]
    | some e =>
      simp only [Option.isNone_some, Bool.false_eq_true, if_false]

theorem intensificationCoeff_purge (mpm : List ((Nat × Nat) × Option ℚ))
    (s : StepSettings) :
    intensificationCoeff mpm (some (purgeSettings mpm s)) =
      intensificationCoeff mpm (some s) := by
  simp only [intensificationCoeff, purgeSettings, resolve_purge]

theorem stepTargetWeight_purge (mpm : List ((Nat × Nat) × Option ℚ))
    (s : StepSettings) :
    stepTargetWeight mpm (some (purgeSettings mpm s)) =
      stepTargetWeight mpm (some s) := by
  simp only [stepTargetWeight, purgeSettings, resolve_purge]

theorem stepThreeCoeffLocal_purge (mpm : List ((Nat × Nat) × Option ℚ))
    (s : StepSettings) (c : ℚ) :
    stepThreeCoeffLocal mpm (some (purgeSettings mpm s)) c =
      stepThreeCoeffLocal mpm (some s) c := by
  simp only [stepThreeCoeffLocal, purgeSettings, resolve_purge]

theorem machineMaxOverrideOf_purge (mpm : List ((Nat × Nat) × Option ℚ))
    (s : StepSettings) :
    machineMaxOverrideOf mpm (some (purgeSettings mpm s)) =
      machineMaxOverrideOf mpm (some s) := by
  simp only [machineMaxOverrideOf, purgeSettings, resolve_purge]

theorem stepTwoRecompute_purge (fields : List QualField)
    (mpm : List ((Nat × Nat) × Option ℚ)) (s : StepSettings)
    (store : List (Nat × QualValue)) :
    stepTwoRecompute fields mpm (some (purgeSettings mpm s)) store =
      stepTwoRecompute fields mpm (some s) store := by
  simp only [stepTwoRecompute, stepTargetWeight_purge]

theorem stepThreeRecompute_purge (fields : List QualField)
    (mpm : List ((Nat × Nat) × Option ℚ)) (s : StepSettings) (c : ℚ)
    (store : List (Nat × QualValue)) :
    stepThreeRecompute fields mpm (some (purgeSettings mpm s)) c store =
      stepThreeRecompute fields mpm (some s) c store := by
  simp only [stepThreeRecompute, stepThreeCoeffLocal_purge, machineMaxOverrideOf_purge]

theorem recompute_purge (stepNumber : Nat) (fields : List QualField)
    (mpm : List ((Nat × Nat) × Option ℚ)) (s : StepSettings)
    (store : List (Nat × QualValue)) :
    recomputeRunValues stepNumber fields mpm (some (purgeSettings mpm s)) store =
      recomputeRunValues stepNumber fields mpm (some s) store := by
  simp only [recomputeRunValues, intensificationCoeff_purge, stepTwoRecompute_purge,
    stepThreeRecompute_purge]

/-- C9: a step-setting slot holding a `%machineId:paramId%` token with no
matching machine parameter resolves to `NaN` (absent), never to a number
(in particular not to zero) and never to an error; and replacing every such
unresolved-token slot by an absent slot changes neither any per-run derived
recompute nor the step-1 summary recommendation — the formulas simply skip
the unresolvable value while the rest of the pass proceeds. -/
theorem token_resolution_spec (mpm : List ((Nat × Nat) × Option ℚ)) (m p : Nat)
    (hmiss : mpm.find? (fun e => e.1 == (m, p)) = none) :
    resolveSettingNumber mpm (some (SettingVal.token m p)) = none
    ∧ (∀ z : ℚ, resolveSettingNumber mpm (some (SettingVal.token m p)) ≠ some z)
    ∧ (∀ (s : StepSettings) (stepNumber : Nat) (fields : List QualField)
        (store : List (Nat × QualValue)),
        recomputeRunValues stepNumber fields mpm (some (purgeSettings mpm s)) store =
          recomputeRunValues stepNumber fields mpm (some s) store)
    ∧ (∀ (s : StepSettings) (fields : List QualField)
        (runStores : List (List (Nat × QualValue))),
        summaryRecommendedInjSpeed fields mpm (some (purgeSettings mpm s)) runStores =
          summaryRecommendedInjSpeed fields mpm (some s) runStores) := by
  have hres : resolveSettingNumber mpm (some (SettingVal.token m p)) = none := by
    simp [resolveSettingNumber, hmiss]
  refine ⟨hres, ?_, ?_, ?_⟩
  · intro z hz
    rw [hres] at hz
    exact Option.noConfusion hz
  · intro s stepNumber fields store
    exact recompute_purge stepNumber fields mpm s store
  · intro s fields runStores
    simp only [summaryRecommendedInjSpeed, purgeSettings, resolve_purge]

/-- A step-2 settings record whose `target_weight_g` is an unresolved
machine token. -/
def c9Settings : StepSettings := { target_weight_g := some (.token 1 2) }

/-- Witness for C9: against an empty machine-parameter map the token
`%1:2%` matches nothing, resolves to absent, and purging it leaves a
concrete step-2 recompute unchanged. -/
theorem token_resolution_spec_witness :
    resolveSettingNumber [] (some (SettingVal.token 1 2)) = none
    ∧ recomputeRunValues 2 c7Fields [] (some (purgeSettings [] c9Settings)) c7TwoStore =
        recomputeRunValues 2 c7Fields [] (some c9Settings) c7TwoStore :=
  ⟨(token_resolution_spec [] 1 2 rfl).1,
   (token_resolution_spec [] 1 2 rfl).2.2.1 c9Settings 2 c7Fields c7TwoStore⟩

end IMDoe
